import Mathlib

/-!
# mtufind: adaptive path-MTU probing

A shallow embedding of `pkg/mtufind/mtufind.go`.

* Go's `int` is the 64-bit two's complement integer: values are `Int`s and every
  arithmetic operation is followed by `wrapInt`.
* Go's `error` is `Option String`: `none` is `nil`, `some msg` an error whose
  text is `msg`.
* The raw socket and the library packages the code calls (`net`, `x/net/icmp`,
  `x/net/ipv4`) are a record of operations `PacketConn σ` over an explicit world
  state `σ`; every theorem about `Run`, `send` and `receive` is for an arbitrary
  such record.
* The `for` loops take fuel, one unit for each pass through the body.
-/

namespace mtufind

/-! ## Machine integers -/

/-- Smallest value of Go's `int` on a 64-bit platform. -/
def minInt : Int := -9223372036854775808

/-- Largest value of Go's `int` on a 64-bit platform. -/
def maxInt : Int := 9223372036854775807

/-- Reduction of an exact integer to the 64-bit two's complement value Go stores. -/
def wrapInt (x : Int) : Int :=
  (x + 9223372036854775808) % 18446744073709551616 - 9223372036854775808

/-- Membership in the range of Go's `int`. -/
def isInt (x : Int) : Prop := minInt ≤ x ∧ x ≤ maxInt

instance (x : Int) : Decidable (isInt x) := by unfold isInt; infer_instance

/-- Go's `a + b` on `int`. -/
def addInt (a b : Int) : Int := wrapInt (a + b)

/-- Go's `a - b` on `int`. -/
def subInt (a b : Int) : Int := wrapInt (a - b)

/-- Go's `a / b` on `int`: the quotient truncated toward zero. -/
def divInt (a b : Int) : Int := wrapInt (Int.tdiv a b)

/-! ## Data model -/

/-- Go's `error`. -/
abbrev Error := Option String

/-- A `net.IP`, seen through the two methods the code calls on it: `String`, the
text `ip.String()` returns, and `To4`, whether `ip.To4()` is non-nil. -/
structure IP where
  String : String
  To4 : Bool
deriving DecidableEq

/-- The `MTUFind` struct; its `conn` field is the `PacketConn` passed alongside. -/
structure MTUFind where
  Destination : IP
  startSize : Int
  ID : Int
deriving DecidableEq

/-! ## resizer -/

/-- The two cells `resizer` receives by address. -/
structure Cells where
  size : Int
  inc : Int
deriving DecidableEq

/-- Statement `*size -= *inc - 1`. -/
def Cells.shrink (c : Cells) : Cells := { c with size := subInt c.size (subInt c.inc 1) }

/-- Statement `*inc = 1`. -/
def Cells.incOne (c : Cells) : Cells := { c with inc := 1 }

/-- Statement `*inc /= 2`. -/
def Cells.incHalve (c : Cells) : Cells := { c with inc := divInt c.inc 2 }

/-- The method `resizer`: both branches shrink `size` first, then set `inc`. -/
def resizer (_mf : MTUFind) (c : Cells) : Cells :=
  if c.inc < 10 then
    c.shrink.incOne
  else
    c.shrink.incHalve

/-! ## Packets -/

/-- Constant `ipv4.Version`. -/
def ipv4.Version : Int := 4

/-- Constant `ipv4.HeaderLen`. -/
def ipv4.HeaderLen : Int := 20

/-- Constant `ipv4.ICMPTypeEcho`, the type number of an echo request. -/
def ipv4.ICMPTypeEcho : Int := 8

/-- Method `ICMPType.Protocol`: the IP protocol number of ICMP, for every type. -/
def ipv4.ICMPType.Protocol (_typ : Int) : Int := 1

/-- The fields of `ipv4.Header` the code sets. -/
structure Header where
  Version : Int
  Len : Int
  TotalLen : Int
  Protocol : Int
  TTL : Int
  Dst : IP
  Flags : Int
deriving DecidableEq

/-- An `icmp.MessageBody`: the `*icmp.Echo` the type switch looks for, or a body of
any other dynamic type (tagged by a number). -/
inductive MessageBody where
  | Echo (ID : Int) (Seq : Int) (Data : List Nat)
  | Other (kind : Nat)
deriving DecidableEq

/-- An `icmp.Message`; `Typ` is its field `Type`. -/
structure Message where
  Typ : Int
  Code : Int
  Body : MessageBody
deriving DecidableEq

/-- The socket `mf.conn` together with the library calls made on it, over a world
state `σ`.

* `NewRawConn` is `ipv4.NewRawConn(mf.conn)`, giving its error;
* `Marshal` is `(*icmp.Message).Marshal(nil)`;
* `WriteTo` is `(*ipv4.RawConn).WriteTo(h, ib, nil)`, giving its error;
* `SetReadDeadline` is `mf.conn.SetReadDeadline(time.Now().Add(timeout))`;
* `ReadFrom` is `mf.conn.ReadFrom(reply)`: `none` when it returns an error (the
  deadline passed), else the bytes `reply[:len]` and the text `peer.String()`;
* `ParseMessage` is `icmp.ParseMessage(proto, b)`. -/
structure PacketConn (σ : Type) where
  NewRawConn : σ → Error × σ
  Marshal : Message → Except String (List Nat)
  WriteTo : Header → List Nat → σ → Error × σ
  SetReadDeadline : σ → Error × σ
  ReadFrom : σ → Option (List Nat × String) × σ
  ParseMessage : Int → List Nat → Except String Message

/-- The method `header`. -/
def header (mf : MTUFind) (size : Int) : Header :=
  { Version := ipv4.Version
    Len := ipv4.HeaderLen
    TotalLen := addInt (addInt ipv4.HeaderLen 8) size
    Protocol := ipv4.ICMPType.Protocol ipv4.ICMPTypeEcho
    TTL := 64
    Dst := mf.Destination
    Flags := 2 }

/-- The method `icmp`. `make([]byte, size)` is the list of `size` zero bytes; for a
negative `size` Go's `make` panics, and `Run` never asks for one
(`Run.loop_sizes`). -/
def icmp (mf : MTUFind) (size : Int) : Message :=
  { Typ := ipv4.ICMPTypeEcho
    Code := 0
    Body := .Echo mf.ID 0 (List.replicate size.toNat 0) }

/-! ## send and receive -/

variable {σ : Type}

/-- The method `send`. -/
def send (conn : PacketConn σ) (mf : MTUFind) (size : Int) (w : σ) : Error × σ :=
  match conn.NewRawConn w with
  | (some err, w) => (some err, w)
  | (none, w) =>
    match conn.Marshal (icmp mf size) with
    | .error err => (some err, w)
    | .ok ib =>
      match conn.WriteTo (header mf size) ib w with
      | (some _, w) => (some "Packet too large for local MTU", w)
      | (none, w) => (none, w)

/-- Constant `packetsCheck` of `receive`. -/
def packetsCheck : Nat := 10

/-- The loop of `receive` with `left` passes to go: `current = packetsCheck + 1 - left`,
so `left = 0` is the exit `current > packetsCheck`. -/
def receive.loop (conn : PacketConn σ) (mf : MTUFind) : Nat → σ → Error × σ
  | 0, w => (some "no reply", w)
  | left + 1, w =>
    match conn.SetReadDeadline w with
    | (some err, w) => (some err, w)
    | (none, w) =>
      match conn.ReadFrom w with
      | (none, w) => (some "timeout", w)
      | (some (reply, peer), w) =>
        match conn.ParseMessage (ipv4.ICMPType.Protocol ipv4.ICMPTypeEcho) reply with
        | .error err => (some err, w)
        | .ok parse =>
          match parse.Body with
          | .Echo ID _ _ =>
            if peer ≠ mf.Destination.String then
              receive.loop conn mf left w
            else if ID ≠ mf.ID then
              receive.loop conn mf left w
            else
              (none, w)
          | .Other _ => receive.loop conn mf left w

/-- The method `receive`; its argument `size` is not used. -/
def receive (conn : PacketConn σ) (mf : MTUFind) (_size : Int) (w : σ) : Error × σ :=
  receive.loop conn mf packetsCheck w

/-! ## Run -/

/-- What one pass of the main loop did with its probe, as the debug log tells it:
`Send error`, `Reply error` or `Received reply`. -/
inductive ProbeResult where
  | sendError
  | replyError
  | received
deriving DecidableEq

/-- One pass of the main loop: the line `count=.. size=.. inc=.. max=..` it logs
before sending `size` bytes, and what came of the probe. -/
structure ProbeLog where
  count : Int
  size : Int
  inc : Int
  max : Int
  result : ProbeResult
deriving DecidableEq

/-- The state in which the main loop is left. -/
structure LoopEnd (σ : Type) where
  size : Int
  inc : Int
  count : Int
  maxSize : Int
  world : σ
  log : List ProbeLog

/-- Prefixes one more pass to the log of the rest of the loop. -/
def LoopEnd.push (e : ProbeLog) (r : LoopEnd σ) : LoopEnd σ := { r with log := e :: r.log }

/-- The main loop of `Run`, `for size := mf.startSize; size <= 20000; { ... }`, from
the values of `size`, `inc`, `count` and `maxSize` at the loop head. -/
def Run.loop (conn : PacketConn σ) (mf : MTUFind) :
    Nat → Int → Int → Int → Int → σ → Option (LoopEnd σ)
  | fuel, size, inc, count, maxSize, w =>
    if size ≤ 20000 then
      match fuel with
      | 0 => none
      | fuel + 1 =>
        let size := addInt size inc
        let line : ProbeResult → ProbeLog := fun r => ⟨count, size, inc, maxSize, r⟩
        let count := addInt count 1
        match send conn mf size w with
        | (some _, w) =>
          if inc = 1 then
            some ⟨size, inc, count, maxSize, w, [line .sendError]⟩
          else
            let c := resizer mf ⟨size, inc⟩
            (Run.loop conn mf fuel c.size c.inc count maxSize w).map
              (LoopEnd.push (line .sendError))
        | (none, w) =>
          match receive conn mf size w with
          | (some _, w) =>
            if inc = 1 then
              some ⟨size, inc, count, maxSize, w, [line .replyError]⟩
            else
              let c := resizer mf ⟨size, inc⟩
              (Run.loop conn mf fuel c.size c.inc count maxSize w).map
                (LoopEnd.push (line .replyError))
          | (none, w) =>
            let maxSize := if size > maxSize then size else maxSize
            (Run.loop conn mf fuel size inc count maxSize w).map (LoopEnd.push (line .received))
    else
      some ⟨size, inc, count, maxSize, w, []⟩

/-- What a call of `Run` leaves behind: the two values it returns, the log of the
main loop and the world. -/
structure RunEnd (σ : Type) where
  ret : Int
  err : Error
  log : List ProbeLog
  world : σ

/-- The method `Run`, with the log of its main loop and the final world. -/
def Run.full (conn : PacketConn σ) (mf : MTUFind) (fuel : Nat) (w : σ) : Option (RunEnd σ) :=
  let maxSize : Int := 0
  let inc : Int := 500
  let count : Int := 1
  let rest : σ → Option (RunEnd σ) := fun w =>
    (Run.loop conn mf fuel mf.startSize inc count maxSize w).map fun r =>
      ⟨addInt (addInt 20 8) r.maxSize, none, r.log, r.world⟩
  match send conn mf 56 w with
  | (none, w) =>
    match receive conn mf 56 w with
    | (some _, w) => some ⟨-1, some "Unreachable", [], w⟩
    | (none, w) => rest w
  | (some _, w) => rest w

/-- The method `Run`: the pair `(int, error)` it returns. -/
def Run (conn : PacketConn σ) (mf : MTUFind) (fuel : Nat) (w : σ) : Option (Int × Error) :=
  (Run.full conn mf fuel w).map fun r => (r.ret, r.err)

/-! ## Notions used to state the properties -/

/-- The probe of one pass of `Run`: `send`, then `receive` when `send` returned
nil, with the world afterwards. -/
def probe (conn : PacketConn σ) (mf : MTUFind) (size : Int) (w : σ) : ProbeResult × σ :=
  match send conn mf size w with
  | (some _, w) => (.sendError, w)
  | (none, w) =>
    match receive conn mf size w with
    | (some _, w) => (.replyError, w)
    | (none, w) => (.received, w)

/-- The increment `resizer` leaves, on exact integers. -/
def nextInc (inc : Int) : Int := if inc < 10 then 1 else inc / 2

/-- The value of `size` at the head of the pass that logged `e`. -/
def ProbeLog.head (e : ProbeLog) : Int := e.size - e.inc

/-- A datagram is a match for `mf` when it parses to an echo body, its sender prints
as the destination and the identifier of the body is the one of `mf`. -/
def isMatch (conn : PacketConn σ) (mf : MTUFind) (d : List Nat × String) : Prop :=
  ∃ parse ID Seq Data,
    conn.ParseMessage (ipv4.ICMPType.Protocol ipv4.ICMPTypeEcho) d.1 = .ok parse ∧
    parse.Body = .Echo ID Seq Data ∧ d.2 = mf.Destination.String ∧ ID = mf.ID

/-! ## Worlds -/

/-- A world in which a probe leaves the host exactly when its payload is at most
`T` bytes, and every read returns an echo reply from `dst` with identifier `id`. -/
def thresholdConn (T : Int) (dst : String) (id : Int) : PacketConn Unit where
  NewRawConn w := (none, w)
  Marshal _ := .ok []
  WriteTo h _ w := (if h.TotalLen ≤ T + 28 then none else some "message too long", w)
  SetReadDeadline w := (none, w)
  ReadFrom w := (some ([], dst), w)
  ParseMessage _ _ := .ok ⟨0, 0, .Echo id 0 []⟩

/-- A world that is the stream of what the next reads return: `none` for a read
that times out, else the datagram and its sender; after the stream, reads time
out. Writes succeed and change nothing. `parse` is `icmp.ParseMessage`. -/
def streamConn (parse : List Nat → Except String Message) :
    PacketConn (List (Option (List Nat × String))) where
  NewRawConn w := (none, w)
  Marshal _ := .ok []
  WriteTo _ _ w := (none, w)
  SetReadDeadline w := (none, w)
  ReadFrom w :=
    match w with
    | [] => (none, [])
    | d :: rest => (d, rest)
  ParseMessage _ b := parse b

/-- A toy `icmp.ParseMessage`: `[0, id]` is an echo reply with identifier `id`,
`[3]` a destination-unreachable message, anything else is malformed. -/
def parseToy : List Nat → Except String Message
  | [0, id] => .ok ⟨0, 0, .Echo id 0 []⟩
  | [3] => .ok ⟨3, 0, .Other 3⟩
  | _ => .error "message too short"

/-- A session to 192.0.2.1 with identifier 7, as `New` builds it. -/
def mfExample : MTUFind := ⟨⟨"192.0.2.1", true⟩, 50, 7⟩

/-- The world `conn` with a count of the calls of `ReadFrom` beside its state. -/
def countConn (conn : PacketConn σ) : PacketConn (σ × Nat) where
  NewRawConn w := ((conn.NewRawConn w.1).1, (conn.NewRawConn w.1).2, w.2)
  Marshal := conn.Marshal
  WriteTo h ib w := ((conn.WriteTo h ib w.1).1, (conn.WriteTo h ib w.1).2, w.2)
  SetReadDeadline w := ((conn.SetReadDeadline w.1).1, (conn.SetReadDeadline w.1).2, w.2)
  ReadFrom w := ((conn.ReadFrom w.1).1, (conn.ReadFrom w.1).2, w.2 + 1)
  ParseMessage := conn.ParseMessage

/-! ## New -/

/-- How a call ends: it returns a value, or it panics. -/
inductive Outcome (α : Type) where
  | returned (a : α)
  | panicked (msg : String)
deriving DecidableEq

/-- The call `rand.Intn(n)` on the draw `r` of the generator: it panics for `n <= 0`
(`none`), else gives a number from 0 to `n - 1`. -/
def Intn (n : Int) (r : Nat) : Option Int :=
  if n ≤ 0 then none else some ((r : Int) % n)

/-- What `New` meets outside the program: `ListenPacket`, the error of
`net.ListenPacket("ip4:icmp", "0.0.0.0")` (nil when the raw socket is opened);
`draws`, what the generator seeded by `rand.Seed` draws for the two calls of
`rand.Intn`; `LookupIP`, the function `net.LookupIP`. -/
structure Host where
  ListenPacket : Error
  draws : Nat × Nat
  LookupIP : String → Except String (List IP)

/-- The function `New`, from `sockets` raw sockets open: what it returns (the
`*MTUFind` or nil, and the error) or that it panics, and the number of raw sockets
open when it ends. A `ListenPacket` that succeeds opens one; `New` closes none. -/
def New (host : Host) (destination : String) (sockets : Nat) :
    Outcome (Option MTUFind × Error) × Nat :=
  match host.ListenPacket with
  | some err => (.returned (none, some err), sockets)
  | none =>
    let sockets := sockets + 1
    match Intn 65535 host.draws.1 with
    | none => (.panicked "invalid argument to Intn", sockets)
    | some ID =>
      match host.LookupIP destination with
      | .error _ => (.returned (none, some "Invalid IP/FQDN"), sockets)
      | .ok resolve46 =>
        let resolve4 := resolve46.filter fun addr => addr.To4
        match Intn resolve4.length host.draws.2 with
        | none => (.panicked "invalid argument to Intn", sockets)
        | some i =>
          match resolve4[i.toNat]? with
          | none => (.panicked "index out of range", sockets)
          | some ip =>
            if ip.String = "127.0.0.1" then
              (.returned (none, some "127.0.0.1 is not a valid destination"), sockets)
            else
              (.returned (some ⟨ip, 50, ID⟩, none), sockets)

/-- A host on which the raw socket opens and every name resolves to `addrs`. -/
def hostExample (addrs : List IP) : Host :=
  { ListenPacket := none
    draws := (4242, 17)
    LookupIP := fun _ => .ok addrs }

/-- The increments of a run, in the order its failed probes leave them. -/
def incTable : List Int := [500, 250, 125, 62, 31, 15, 7, 1]

/-- The increment after `k` failed probes. -/
def incAfter (k : Nat) : Int := incTable.getD k 1

/-- The number of failed probes in a piece of the log. -/
def failures (log : List ProbeLog) : Nat :=
  log.countP fun e => decide (e.result ≠ .received)

/-! ## Machine integers: lemmas -/

theorem wrapInt_eq {x : Int} (h : isInt x) : wrapInt x = x := by
  unfold isInt minInt maxInt at h
  unfold wrapInt
  omega

theorem addInt_eq {a b : Int} (h : isInt (a + b)) : addInt a b = a + b := wrapInt_eq h

theorem subInt_eq {a b : Int} (h : isInt (a - b)) : subInt a b = a - b := wrapInt_eq h

theorem isInt_small {x : Int} (h1 : -1000000000 ≤ x) (h2 : x ≤ 1000000000) : isInt x := by
  unfold isInt minInt maxInt
  omega

theorem tdiv_two (a : Int) :
    (0 ≤ a → a.tdiv 2 = a / 2) ∧ (a < 0 → a.tdiv 2 = -((-a) / 2)) := by
  constructor
  · intro h
    exact Int.tdiv_eq_ediv h (by decide)
  · intro h
    rw [← Int.tdiv_eq_ediv (by omega) (by decide), Int.neg_tdiv, neg_neg]

theorem divInt_two {a : Int} (h : isInt a) : divInt a 2 = a.tdiv 2 := by
  unfold isInt minInt maxInt at h
  apply wrapInt_eq
  unfold isInt minInt maxInt
  rcases le_or_lt 0 a with h0 | h0
  · rw [(tdiv_two a).1 h0]; omega
  · rw [(tdiv_two a).2 h0]; omega

/-! ## resizer -/

theorem resizer_eq (mf : MTUFind) (size inc : Int) :
    resizer mf ⟨size, inc⟩ =
      ⟨subInt size (subInt inc 1), if inc < 10 then 1 else divInt inc 2⟩ := by
  unfold resizer Cells.shrink Cells.incOne Cells.incHalve
  split <;> rfl

/-- Inside the loop of `Run` nothing overflows in `resizer`. -/
theorem resizer_small (mf : MTUFind) {size inc : Int} (hs1 : -1000000 ≤ size)
    (hs2 : size ≤ 1000000) (hi1 : 1 ≤ inc) (hi2 : inc ≤ 500) :
    resizer mf ⟨size, inc⟩ = ⟨size - (inc - 1), nextInc inc⟩ := by
  rw [resizer_eq, subInt_eq (a := inc) (isInt_small (by omega) (by omega)),
    subInt_eq (isInt_small (by omega) (by omega)),
    divInt_two (isInt_small (by omega) (by omega)), (tdiv_two inc).1 (by omega)]
  rfl

/-- C1. For every size and every Go integer `inc`, and whatever the receiver,
`resizer` leaves exactly `(size - (inc - 1), 1)` when `inc < 10` and
`(size - (inc - 1), inc / 2)`, the quotient truncated, when `inc >= 10`, the
subtractions being Go's; whenever the exact difference `size - (inc - 1)` is a Go
integer, the new size is that exact difference; and the result is the same for
every receiver. -/
theorem resizer_spec (mf mf' : MTUFind) (size inc : Int) (hi : isInt inc) :
    (inc < 10 → resizer mf ⟨size, inc⟩ = ⟨subInt size (subInt inc 1), 1⟩) ∧
    (10 ≤ inc → resizer mf ⟨size, inc⟩ = ⟨subInt size (subInt inc 1), inc.tdiv 2⟩) ∧
    (isInt (size - (inc - 1)) → (resizer mf ⟨size, inc⟩).size = size - (inc - 1)) ∧
    isInt (resizer mf ⟨size, inc⟩).size ∧ isInt (resizer mf ⟨size, inc⟩).inc ∧
    resizer mf' ⟨size, inc⟩ = resizer mf ⟨size, inc⟩ := by
  have hd := divInt_two hi
  have ht := tdiv_two inc
  refine ⟨?_, ?_, ?_, ?_, ?_, ?_⟩
  · intro h
    rw [resizer_eq, if_pos h]
  · intro h
    rw [resizer_eq, if_neg (by omega), hd]
  · intro h
    rw [resizer_eq]
    unfold isInt minInt maxInt at h
    show subInt size (subInt inc 1) = _
    unfold subInt wrapInt
    omega
  · rw [resizer_eq]
    show isInt (subInt size (subInt inc 1))
    unfold isInt minInt maxInt subInt wrapInt
    omega
  · rw [resizer_eq]
    show isInt (if inc < 10 then 1 else divInt inc 2)
    unfold isInt minInt maxInt at hi ⊢
    split
    · omega
    · rw [hd, ht.1 (by omega)]; omega
  · rw [resizer_eq, resizer_eq]

/-- C1 at the first failure of a run: `(550, 500)` becomes `(51, 250)`. -/
theorem resizer_spec_witness :
    isInt 500 ∧ resizer mfExample ⟨550, 500⟩ = ⟨51, 250⟩ :=
  ⟨by decide, (resizer_spec mfExample mfExample 550 500 (by decide)).2.1 (by decide)⟩

/-! ## The main loop, one pass at a time -/

theorem Run.loop_exit (conn : PacketConn σ) (mf : MTUFind) (fuel : Nat)
    (size inc count maxSize : Int) (w : σ) (h : 20000 < size) :
    Run.loop conn mf fuel size inc count maxSize w = some ⟨size, inc, count, maxSize, w, []⟩ := by
  unfold Run.loop
  simp [not_le.mpr h]

theorem Run.loop_zero (conn : PacketConn σ) (mf : MTUFind)
    (size inc count maxSize : Int) (w : σ) (h : size ≤ 20000) :
    Run.loop conn mf 0 size inc count maxSize w = none := by
  unfold Run.loop
  simp [h]

theorem Run.loop_succ (conn : PacketConn σ) (mf : MTUFind) (fuel : Nat)
    (size inc count maxSize : Int) (w : σ) (h : size ≤ 20000) :
    Run.loop conn mf (fuel + 1) size inc count maxSize w =
      match probe conn mf (addInt size inc) w with
      | (.received, w') =>
        (Run.loop conn mf fuel (addInt size inc) inc (addInt count 1)
          (if addInt size inc > maxSize then addInt size inc else maxSize) w').map
          (LoopEnd.push ⟨count, addInt size inc, inc, maxSize, .received⟩)
      | (res, w') =>
        if inc = 1 then
          some ⟨addInt size inc, inc, addInt count 1, maxSize, w',
            [⟨count, addInt size inc, inc, maxSize, res⟩]⟩
        else
          (Run.loop conn mf fuel (resizer mf ⟨addInt size inc, inc⟩).size
            (resizer mf ⟨addInt size inc, inc⟩).inc (addInt count 1) maxSize w').map
            (LoopEnd.push ⟨count, addInt size inc, inc, maxSize, res⟩) := by
  rw [Run.loop]
  simp only [h, if_true, probe]
  rcases send conn mf (addInt size inc) w with ⟨_ | e, w1⟩
  · simp only []
    rcases receive conn mf (addInt size inc) w1 with ⟨_ | e, w2⟩ <;> simp only []
  · simp only []

theorem probe_cases (conn : PacketConn σ) (mf : MTUFind) (size : Int) (w : σ) :
    (probe conn mf size w = (.sendError, (send conn mf size w).2) ∧
      (send conn mf size w).1 ≠ none) ∨
    (probe conn mf size w = (.replyError, (receive conn mf size (send conn mf size w).2).2) ∧
      (send conn mf size w).1 = none ∧
      (receive conn mf size (send conn mf size w).2).1 ≠ none) ∨
    (probe conn mf size w = (.received, (receive conn mf size (send conn mf size w).2).2) ∧
      (send conn mf size w).1 = none ∧
      (receive conn mf size (send conn mf size w).2).1 = none) := by
  unfold probe
  rcases hs : send conn mf size w with ⟨_ | e, w1⟩
  · rcases hr : receive conn mf size w1 with ⟨_ | e, w2⟩ <;> simp [hr]
  · simp

theorem nextInc_bounds {inc : Int} (h1 : 1 ≤ inc) (h2 : inc ≤ 500) :
    1 ≤ nextInc inc ∧ nextInc inc ≤ 500 ∧ (1 < inc → nextInc inc < inc) := by
  unfold nextInc
  split <;> omega

/-- Induction over the passes of the main loop, from a head state with
`50 ≤ size` and `1 ≤ inc ≤ 500`, where no operation overflows. -/
theorem Run.loop_induction (conn : PacketConn σ) (mf : MTUFind)
    (P : Int → Int → Int → Int → σ → LoopEnd σ → Prop)
    (hexit : ∀ size inc count maxSize w, 20000 < size →
      P size inc count maxSize w ⟨size, inc, count, maxSize, w, []⟩)
    (hbreak : ∀ size count maxSize w res w', 50 ≤ size → size ≤ 20000 →
      probe conn mf (size + 1) w = (res, w') → res ≠ .received →
      P size 1 count maxSize w
        ⟨size + 1, 1, addInt count 1, maxSize, w', [⟨count, size + 1, 1, maxSize, res⟩]⟩)
    (hfail : ∀ size inc count maxSize w res w' r, 50 ≤ size → size ≤ 20000 → 1 < inc →
      inc ≤ 500 → probe conn mf (size + inc) w = (res, w') → res ≠ .received →
      P (size + 1) (nextInc inc) (addInt count 1) maxSize w' r →
      P size inc count maxSize w (r.push ⟨count, size + inc, inc, maxSize, res⟩))
    (hok : ∀ size inc count maxSize w w' r, 50 ≤ size → size ≤ 20000 → 1 ≤ inc →
      inc ≤ 500 → probe conn mf (size + inc) w = (.received, w') →
      P (size + inc) inc (addInt count 1) (if size + inc > maxSize then size + inc else maxSize)
        w' r →
      P size inc count maxSize w (r.push ⟨count, size + inc, inc, maxSize, .received⟩)) :
    ∀ fuel size inc count maxSize w r, 50 ≤ size → 1 ≤ inc → inc ≤ 500 →
      Run.loop conn mf fuel size inc count maxSize w = some r → P size inc count maxSize w r := by
  intro fuel
  induction fuel with
  | zero =>
    intro size inc count maxSize w r _ _ _ h
    rcases le_or_lt size 20000 with hs | hs
    · rw [Run.loop_zero conn mf _ _ _ _ _ hs] at h
      exact absurd h (by simp)
    · rw [Run.loop_exit conn mf _ _ _ _ _ _ hs] at h
      cases h
      exact hexit _ _ _ _ _ hs
  | succ fuel ih =>
    intro size inc count maxSize w r h50 hi1 hi2 h
    rcases le_or_lt size 20000 with hs | hs
    · rw [Run.loop_succ conn mf _ _ _ _ _ _ hs,
        addInt_eq (isInt_small (by omega) (by omega))] at h
      rcases hp : probe conn mf (size + inc) w with ⟨res, w'⟩
      rw [hp] at h
      cases res
      case received =>
        simp only [Option.map_eq_some'] at h
        obtain ⟨r', hr', rfl⟩ := h
        exact hok _ _ _ _ _ _ _ h50 hs hi1 hi2 hp (ih _ _ _ _ _ _ (by omega) hi1 hi2 hr')
      all_goals
        simp only [] at h
        by_cases h1 : inc = 1
        · subst h1
          rw [if_pos rfl] at h
          cases h
          exact hbreak _ _ _ _ _ _ h50 hs hp (by simp)
        · rw [if_neg h1, resizer_small mf (by omega) (by omega) hi1 hi2] at h
          simp only [Option.map_eq_some'] at h
          obtain ⟨r', hr', rfl⟩ := h
          have hn := nextInc_bounds hi1 hi2
          have e : size + inc - (inc - 1) = size + 1 := by omega
          rw [e] at hr'
          exact hfail _ _ _ _ _ _ _ _ h50 hs (by omega) hi2 hp (by simp)
            (ih _ _ _ _ _ _ (by omega) hn.1 hn.2.1 hr')
    · rw [Run.loop_exit conn mf _ _ _ _ _ _ hs] at h
      cases h
      exact hexit _ _ _ _ _ hs

/-- The main loop ends: from a head state with `50 ≤ size` and `1 ≤ inc ≤ 500`,
`20001 - size` passes are enough. -/
theorem Run.loop_terminates (conn : PacketConn σ) (mf : MTUFind) :
    ∀ (fuel : Nat) (size inc count maxSize : Int) (w : σ), 50 ≤ size → 1 ≤ inc → inc ≤ 500 →
      20001 - size ≤ (fuel : Int) →
      ∃ r, Run.loop conn mf fuel size inc count maxSize w = some r := by
  intro fuel
  induction fuel with
  | zero =>
    intro size inc count maxSize w _ _ _ hf
    exact ⟨_, Run.loop_exit conn mf _ _ _ _ _ _ (by omega)⟩
  | succ fuel ih =>
    intro size inc count maxSize w h50 hi1 hi2 hf
    rcases le_or_lt size 20000 with hs | hs
    · rw [Run.loop_succ conn mf _ _ _ _ _ _ hs,
        addInt_eq (isInt_small (by omega) (by omega))]
      rcases probe conn mf (size + inc) w with ⟨res, w'⟩
      have hn := nextInc_bounds hi1 hi2
      have hfail : ∃ r, (if inc = 1 then
          some (⟨size + inc, inc, addInt count 1, maxSize, w',
            [⟨count, size + inc, inc, maxSize, res⟩]⟩ : LoopEnd σ)
        else
          (Run.loop conn mf fuel (resizer mf ⟨size + inc, inc⟩).size
            (resizer mf ⟨size + inc, inc⟩).inc (addInt count 1) maxSize w').map
            (LoopEnd.push ⟨count, size + inc, inc, maxSize, res⟩)) = some r := by
        by_cases h1 : inc = 1
        · rw [if_pos h1]; exact ⟨_, rfl⟩
        · rw [if_neg h1, resizer_small mf (by omega) (by omega) hi1 hi2]
          obtain ⟨r, hr⟩ := ih (size + inc - (inc - 1)) (nextInc inc) (addInt count 1) maxSize w'
            (by omega) hn.1 hn.2.1 (by push_cast at hf ⊢; omega)
          exact ⟨_, by rw [hr]; rfl⟩
      cases res
      case received =>
        obtain ⟨r, hr⟩ := ih (size + inc) inc (addInt count 1)
          (if size + inc > maxSize then size + inc else maxSize) w'
          (by omega) hi1 hi2 (by push_cast at hf ⊢; omega)
        exact ⟨_, by simp only [hr]; rfl⟩
      all_goals exact hfail
    · exact ⟨_, Run.loop_exit conn mf _ _ _ _ _ _ hs⟩

/-! ## What the log of the main loop holds -/

/-- Every pass starts from a head between the first head and 20000 and probes at
most 20500 bytes, with an increment between 1 and 500. -/
theorem Run.loop_sizes (conn : PacketConn σ) (mf : MTUFind) (fuel : Nat)
    (size inc count maxSize : Int) (w : σ) (r : LoopEnd σ) (h50 : 50 ≤ size) (hi1 : 1 ≤ inc)
    (hi2 : inc ≤ 500) (h : Run.loop conn mf fuel size inc count maxSize w = some r) :
    ∀ e ∈ r.log,
      size ≤ e.head ∧ e.head ≤ 20000 ∧ e.size ≤ 20500 ∧ 1 ≤ e.inc ∧ e.inc ≤ 500 := by
  refine Run.loop_induction conn mf
    (fun size _ _ _ _ r =>
      ∀ e ∈ r.log, size ≤ e.head ∧ e.head ≤ 20000 ∧ e.size ≤ 20500 ∧ 1 ≤ e.inc ∧ e.inc ≤ 500)
    ?_ ?_ ?_ ?_ fuel size inc count maxSize w r h50 hi1 hi2 h
  · intro size inc count maxSize w _ e he
    simp at he
  · intro size count maxSize w res w' _ _ _ _ e he
    simp only [List.mem_singleton] at he
    subst he
    simp only [ProbeLog.head]
    omega
  · intro size inc count maxSize w res w' r _ _ _ _ _ _ ih e he
    simp only [LoopEnd.push, List.mem_cons] at he
    rcases he with rfl | he
    · simp only [ProbeLog.head]
      omega
    · have := ih e he
      omega
  · intro size inc count maxSize w w' r _ _ _ _ _ ih e he
    simp only [LoopEnd.push, List.mem_cons] at he
    rcases he with rfl | he
    · simp only [ProbeLog.head]
      omega
    · have := ih e he
      omega

/-- The loop makes at most `20001 - size` passes. -/
theorem Run.loop_length (conn : PacketConn σ) (mf : MTUFind) (fuel : Nat)
    (size inc count maxSize : Int) (w : σ) (r : LoopEnd σ) (h50 : 50 ≤ size) (hi1 : 1 ≤ inc)
    (hi2 : inc ≤ 500) (h : Run.loop conn mf fuel size inc count maxSize w = some r) :
    (r.log.length : Int) ≤ 20001 - size ∨ r.log = [] := by
  refine Run.loop_induction conn mf
    (fun size _ _ _ _ r => (r.log.length : Int) ≤ 20001 - size ∨ r.log = [])
    ?_ ?_ ?_ ?_ fuel size inc count maxSize w r h50 hi1 hi2 h
  · intro size inc count maxSize w _
    exact Or.inr rfl
  · intro size count maxSize w res w' _ _ _ _
    left
    simp only [List.length_singleton]
    omega
  · intro size inc count maxSize w res w' r _ _ _ _ _ _ ih
    left
    simp only [LoopEnd.push, List.length_cons]
    rcases ih with ih | ih
    · push_cast; omega
    · rw [ih]; simp only [List.length_nil]; omega
  · intro size inc count maxSize w w' r _ _ _ _ _ ih
    left
    simp only [LoopEnd.push, List.length_cons]
    rcases ih with ih | ih
    · push_cast; omega
    · rw [ih]; simp only [List.length_nil]; omega

/-- From one pass to the next the size at the loop head grows. -/
theorem Run.loop_heads (conn : PacketConn σ) (mf : MTUFind) (fuel : Nat)
    (size inc count maxSize : Int) (w : σ) (r : LoopEnd σ) (h50 : 50 ≤ size) (hi1 : 1 ≤ inc)
    (hi2 : inc ≤ 500) (h : Run.loop conn mf fuel size inc count maxSize w = some r) :
    List.Chain' (fun a b : ProbeLog => a.head < b.head) r.log ∧
      ∀ e ∈ r.log.head?, e.head = size := by
  refine Run.loop_induction conn mf
    (fun size _ _ _ _ r => List.Chain' (fun a b : ProbeLog => a.head < b.head) r.log ∧
      ∀ e ∈ r.log.head?, e.head = size)
    ?_ ?_ ?_ ?_ fuel size inc count maxSize w r h50 hi1 hi2 h
  · intro size inc count maxSize w _
    simp
  · intro size count maxSize w res w' _ _ _ _
    simp [ProbeLog.head]
  · intro size inc count maxSize w res w' r _ _ _ _ _ _ ih
    simp only [LoopEnd.push, List.chain'_cons', List.head?_cons, Option.mem_def,
      Option.some.injEq, forall_eq', ProbeLog.head]
    refine ⟨⟨?_, ih.1⟩, by omega⟩
    intro y hy
    have := ih.2 y hy
    simp only [ProbeLog.head] at this ⊢
    omega
  · intro size inc count maxSize w w' r _ _ _ _ _ ih
    simp only [LoopEnd.push, List.chain'_cons', List.head?_cons, Option.mem_def,
      Option.some.injEq, forall_eq', ProbeLog.head]
    refine ⟨⟨?_, ih.1⟩, by omega⟩
    intro y hy
    have := ih.2 y hy
    simp only [ProbeLog.head] at this ⊢
    omega

/-- The loop is left either through its condition, `size > 20000`, or by the
`break` of a pass that failed with `inc == 1`, which is then the last one. -/
theorem Run.loop_end (conn : PacketConn σ) (mf : MTUFind) (fuel : Nat)
    (size inc count maxSize : Int) (w : σ) (r : LoopEnd σ) (h50 : 50 ≤ size) (hi1 : 1 ≤ inc)
    (hi2 : inc ≤ 500) (h : Run.loop conn mf fuel size inc count maxSize w = some r) :
    20000 < r.size ∨
      ∃ e, r.log.getLast? = some e ∧ e.inc = 1 ∧ e.result ≠ .received ∧ r.size = e.size := by
  refine Run.loop_induction conn mf
    (fun _ _ _ _ _ r => 20000 < r.size ∨
      ∃ e, r.log.getLast? = some e ∧ e.inc = 1 ∧ e.result ≠ .received ∧ r.size = e.size)
    ?_ ?_ ?_ ?_ fuel size inc count maxSize w r h50 hi1 hi2 h
  · intro size inc count maxSize w hs
    exact Or.inl hs
  · intro size count maxSize w res w' _ _ _ hres
    exact Or.inr ⟨_, rfl, rfl, hres, rfl⟩
  · intro size inc count maxSize w res w' r _ _ _ _ _ _ ih
    rcases ih with ih | ⟨e, he, h1, h2, h3⟩
    · exact Or.inl ih
    · refine Or.inr ⟨e, ?_, h1, h2, h3⟩
      simp only [LoopEnd.push]
      rw [List.getLast?_cons, he]
      rfl
  · intro size inc count maxSize w w' r _ _ _ _ _ ih
    rcases ih with ih | ⟨e, he, h1, h2, h3⟩
    · exact Or.inl ih
    · refine Or.inr ⟨e, ?_, h1, h2, h3⟩
      simp only [LoopEnd.push]
      rw [List.getLast?_cons, he]
      rfl


/-- Each logged result is what `probe` gave for the logged size in some world. -/
theorem Run.loop_results (conn : PacketConn σ) (mf : MTUFind) (fuel : Nat)
    (size inc count maxSize : Int) (w : σ) (r : LoopEnd σ) (h50 : 50 ≤ size) (hi1 : 1 ≤ inc)
    (hi2 : inc ≤ 500) (h : Run.loop conn mf fuel size inc count maxSize w = some r) :
    ∀ e ∈ r.log, ∃ w1, (probe conn mf e.size w1).1 = e.result := by
  refine Run.loop_induction conn mf
    (fun _ _ _ _ _ r => ∀ e ∈ r.log, ∃ w1, (probe conn mf e.size w1).1 = e.result)
    ?_ ?_ ?_ ?_ fuel size inc count maxSize w r h50 hi1 hi2 h
  · intro size inc count maxSize w _ e he
    simp at he
  · intro size count maxSize w res w' _ _ hp _ e he
    simp only [List.mem_singleton] at he
    subst he
    exact ⟨w, by rw [hp]⟩
  · intro size inc count maxSize w res w' r _ _ _ _ hp _ ih e he
    simp only [LoopEnd.push, List.mem_cons] at he
    rcases he with rfl | he
    · exact ⟨w, by rw [hp]⟩
    · exact ih e he
  · intro size inc count maxSize w w' r _ _ _ _ hp ih e he
    simp only [LoopEnd.push, List.mem_cons] at he
    rcases he with rfl | he
    · exact ⟨w, by rw [hp]⟩
    · exact ih e he

/-- The `maxSize` the loop ends with is the largest of the `maxSize` it began with
and the sizes of the passes that received a reply. -/
theorem Run.loop_maxSize (conn : PacketConn σ) (mf : MTUFind) (fuel : Nat)
    (size inc count maxSize : Int) (w : σ) (r : LoopEnd σ) (h50 : 50 ≤ size) (hi1 : 1 ≤ inc)
    (hi2 : inc ≤ 500) (h : Run.loop conn mf fuel size inc count maxSize w = some r) :
    maxSize ≤ r.maxSize ∧ (∀ e ∈ r.log, e.result = .received → e.size ≤ r.maxSize) ∧
      (r.maxSize = maxSize ∨ ∃ e ∈ r.log, e.result = .received ∧ e.size = r.maxSize) := by
  refine Run.loop_induction conn mf
    (fun _ _ _ maxSize _ r => maxSize ≤ r.maxSize ∧
      (∀ e ∈ r.log, e.result = .received → e.size ≤ r.maxSize) ∧
      (r.maxSize = maxSize ∨ ∃ e ∈ r.log, e.result = .received ∧ e.size = r.maxSize))
    ?_ ?_ ?_ ?_ fuel size inc count maxSize w r h50 hi1 hi2 h
  · intro size inc count maxSize w _
    simp
  · intro size count maxSize w res w' _ _ _ hres
    refine ⟨le_refl _, ?_, Or.inl rfl⟩
    intro e he hr
    simp only [List.mem_singleton] at he
    subst he
    exact absurd hr hres
  · intro size inc count maxSize w res w' r _ _ _ _ _ hres ih
    obtain ⟨ih1, ih2, ih3⟩ := ih
    refine ⟨ih1, ?_, ?_⟩
    · intro e he hr
      simp only [LoopEnd.push, List.mem_cons] at he
      rcases he with rfl | he
      · exact absurd hr hres
      · exact ih2 e he hr
    · rcases ih3 with ih3 | ⟨e, he, hr, hm⟩
      · exact Or.inl ih3
      · exact Or.inr ⟨e, List.mem_cons_of_mem _ he, hr, hm⟩
  · intro size inc count maxSize w w' r _ _ _ _ _ ih
    obtain ⟨ih1, ih2, ih3⟩ := ih
    have hpush : ∀ e, (r.push e).maxSize = r.maxSize := fun _ => rfl
    have hlog : ∀ e, (r.push e).log = e :: r.log := fun _ => rfl
    simp only [hpush, hlog]
    refine ⟨?_, ?_, ?_⟩
    · split at ih1 <;> omega
    · intro e he hr
      simp only [List.mem_cons] at he
      rcases he with rfl | he
      · simp only []
        split at ih1 <;> omega
      · exact ih2 e he hr
    · rcases ih3 with ih3 | ⟨e, he, hr, hm⟩
      · by_cases hgt : size + inc > maxSize
        · rw [if_pos hgt] at ih3
          exact Or.inr ⟨_, List.mem_cons_self _ _, rfl, ih3.symm⟩
        · rw [if_neg hgt] at ih3
          exact Or.inl ih3
      · exact Or.inr ⟨e, List.mem_cons_of_mem _ he, hr, hm⟩

/-! ## Run -/

theorem Run.full_eq (conn : PacketConn σ) (mf : MTUFind) (fuel : Nat) (w : σ) :
    Run.full conn mf fuel w =
      match probe conn mf 56 w with
      | (.replyError, w') => some ⟨-1, some "Unreachable", [], w'⟩
      | (_, w') =>
        (Run.loop conn mf fuel mf.startSize 500 1 0 w').map fun r =>
          ⟨addInt (addInt 20 8) r.maxSize, none, r.log, r.world⟩ := by
  unfold Run.full probe
  rcases send conn mf 56 w with ⟨_ | e, w1⟩
  · simp only []
    rcases receive conn mf 56 w1 with ⟨_ | e, w2⟩ <;> simp only []
  · simp only []

/-- The main loop as `Run` starts it, with enough fuel: it ends, and the value `Run`
computes from its `maxSize` is the exact sum. -/
theorem Run.loop_start (conn : PacketConn σ) (mf : MTUFind) (fuel : Nat) (w : σ)
    (hfuel : 19951 ≤ fuel) :
    ∃ l, Run.loop conn mf fuel 50 500 1 0 w = some l ∧ 0 ≤ l.maxSize ∧ l.maxSize ≤ 20500 ∧
      addInt (addInt 20 8) l.maxSize = 28 + l.maxSize := by
  obtain ⟨l, hl⟩ := Run.loop_terminates conn mf fuel 50 500 1 0 w (by omega) (by omega)
    (by omega) (by omega)
  have hm := Run.loop_maxSize conn mf fuel 50 500 1 0 w l (by omega) (by omega) (by omega) hl
  have hs := Run.loop_sizes conn mf fuel 50 500 1 0 w l (by omega) (by omega) (by omega) hl
  have hb : l.maxSize ≤ 20500 := by
    rcases hm.2.2 with h0 | ⟨e, he, _, hes⟩
    · omega
    · have := hs e he
      omega
  refine ⟨l, hl, hm.1, hb, ?_⟩
  have h28 : addInt 20 8 = 28 := by decide
  rw [h28, addInt_eq (isInt_small (by omega) (by omega))]

/-- When the reachability check fails, `Run` returns at once. -/
theorem Run.full_unreachable (conn : PacketConn σ) (mf : MTUFind) (fuel : Nat) (w : σ)
    (hp : (probe conn mf 56 w).1 = .replyError) :
    Run.full conn mf fuel w = some ⟨-1, some "Unreachable", [], (probe conn mf 56 w).2⟩ := by
  rw [Run.full_eq]
  rcases hq : probe conn mf 56 w with ⟨res, w'⟩
  rw [hq] at hp
  simp only [] at hp
  subst hp
  rfl

/-- When the reachability check does not fail, `Run` is its main loop, started in
the world the check left, and returns 28 more than the loop's `maxSize`. -/
theorem Run.full_searching (conn : PacketConn σ) (mf : MTUFind) (fuel : Nat) (w : σ)
    (hstart : mf.startSize = 50) (hfuel : 19951 ≤ fuel)
    (hp : (probe conn mf 56 w).1 ≠ .replyError) :
    ∃ l, Run.loop conn mf fuel 50 500 1 0 (probe conn mf 56 w).2 = some l ∧
      0 ≤ l.maxSize ∧ l.maxSize ≤ 20500 ∧
      Run.full conn mf fuel w = some ⟨28 + l.maxSize, none, l.log, l.world⟩ := by
  obtain ⟨l, hl, h0, h1, h28⟩ := Run.loop_start conn mf fuel (probe conn mf 56 w).2 hfuel
  refine ⟨l, hl, h0, h1, ?_⟩
  rw [Run.full_eq, hstart]
  rcases hq : probe conn mf 56 w with ⟨res, w'⟩
  rw [hq] at hp hl
  simp only [] at hl
  cases res
  case replyError => exact absurd rfl hp
  all_goals
    simp only [hl, Option.map_some', h28]

/-- C2. Whenever the reachability check does not fail, `Run` returns
`20 + 8 + best` and a nil error, where `best` is the largest payload size among
the main-loop passes whose probe was sent and answered: no such pass is above
`best`, one of them has exactly `best` bytes when there is any, and `best` is 0
when there is none (the 56-byte check is not in the log). -/
theorem Run_returns_best (conn : PacketConn σ) (mf : MTUFind) (fuel : Nat) (w : σ)
    (hstart : mf.startSize = 50) (hfuel : 19951 ≤ fuel)
    (hpre : (send conn mf 56 w).1 = none →
      (receive conn mf 56 (send conn mf 56 w).2).1 = none) :
    ∃ r best, Run.full conn mf fuel w = some r ∧
      Run conn mf fuel w = some (20 + 8 + best, none) ∧
      (∀ e ∈ r.log, e.result = .received → e.size ≤ best) ∧
      ((∃ e ∈ r.log, e.result = .received) →
        ∃ e ∈ r.log, e.result = .received ∧ e.size = best) ∧
      ((∀ e ∈ r.log, e.result ≠ .received) → best = 0) := by
  have hp : (probe conn mf 56 w).1 ≠ .replyError := by
    rcases probe_cases conn mf 56 w with ⟨h, _⟩ | ⟨_, h1, h2⟩ | ⟨h, _⟩
    · rw [h]; simp
    · exact absurd (hpre h1) h2
    · rw [h]; simp
  obtain ⟨l, hl, _, _, hfull⟩ := Run.full_searching conn mf fuel w hstart hfuel hp
  have hm := Run.loop_maxSize conn mf fuel 50 500 1 0 _ l (by omega) (by omega) (by omega) hl
  have hs := Run.loop_sizes conn mf fuel 50 500 1 0 _ l (by omega) (by omega) (by omega) hl
  refine ⟨_, l.maxSize, hfull, ?_, hm.2.1, ?_, ?_⟩
  · simp only [Run, hfull, Option.map_some']
    have e : (28 : Int) + l.maxSize = 20 + 8 + l.maxSize := by omega
    rw [e]
  · rintro ⟨e, he, hr⟩
    rcases hm.2.2 with h0 | h
    · have h1 := hm.2.1 e he hr
      have h2 := hs e he
      simp only [ProbeLog.head] at h2
      omega
    · exact h
  · intro hnone
    rcases hm.2.2 with h0 | ⟨e, he, hr, _⟩
    · exact h0
    · exact absurd hr (hnone e he)

/-- C2 in a world where probes up to 2050 bytes get through. -/
theorem Run_returns_best_witness :
    ∃ (r : RunEnd Unit) (best : Int),
      Run.full (thresholdConn 2050 "192.0.2.1" 7) mfExample 19951 () = some r ∧
      Run (thresholdConn 2050 "192.0.2.1" 7) mfExample 19951 () = some (20 + 8 + best, none) ∧
      (∀ e ∈ r.log, e.result = .received → e.size ≤ best) ∧
      ((∃ e ∈ r.log, e.result = .received) →
        ∃ e ∈ r.log, e.result = .received ∧ e.size = best) ∧
      ((∀ e ∈ r.log, e.result ≠ .received) → best = 0) :=
  Run_returns_best (thresholdConn 2050 "192.0.2.1" 7) mfExample 19951 () rfl (by decide)
    (by decide)

/-- C5. The main loop of `Run` ends whatever `send` and `receive` answer: with fuel
for 19951 passes, `Run` returns and its loop, started at `size = 50`, `inc = 500`
in any world, ends after at most 19951 passes; every pass starts from a head
between 50 and 20000 that is above the head of the pass before; and the loop is
left with `size > 20000` or by a last pass that failed with `inc == 1`. -/
theorem Run_main_loop_terminates (conn : PacketConn σ) (mf : MTUFind) (fuel : Nat) (w : σ)
    (hstart : mf.startSize = 50) (hfuel : 19951 ≤ fuel) :
    (∃ r, Run.full conn mf fuel w = some r ∧ r.log.length ≤ 19951) ∧
    ∀ (count maxSize : Int) (w' : σ),
      ∃ l, Run.loop conn mf fuel mf.startSize 500 count maxSize w' = some l ∧
        l.log.length ≤ 19951 ∧
        List.Chain' (fun a b : ProbeLog => a.head < b.head) l.log ∧
        (∀ e ∈ l.log, 50 ≤ e.head ∧ e.head ≤ 20000) ∧
        (20000 < l.size ∨
          ∃ e, l.log.getLast? = some e ∧ e.inc = 1 ∧ e.result ≠ .received) := by
  have hloop : ∀ (count maxSize : Int) (w' : σ),
      ∃ l, Run.loop conn mf fuel 50 500 count maxSize w' = some l ∧
        l.log.length ≤ 19951 ∧
        List.Chain' (fun a b : ProbeLog => a.head < b.head) l.log ∧
        (∀ e ∈ l.log, 50 ≤ e.head ∧ e.head ≤ 20000) ∧
        (20000 < l.size ∨
          ∃ e, l.log.getLast? = some e ∧ e.inc = 1 ∧ e.result ≠ .received) := by
    intro count maxSize w'
    obtain ⟨l, hl⟩ := Run.loop_terminates conn mf fuel 50 500 count maxSize w' (by omega)
      (by omega) (by omega) (by omega)
    have hlen := Run.loop_length conn mf fuel 50 500 count maxSize w' l (by omega) (by omega)
      (by omega) hl
    have hheads := Run.loop_heads conn mf fuel 50 500 count maxSize w' l (by omega) (by omega)
      (by omega) hl
    have hs := Run.loop_sizes conn mf fuel 50 500 count maxSize w' l (by omega) (by omega)
      (by omega) hl
    have hend := Run.loop_end conn mf fuel 50 500 count maxSize w' l (by omega) (by omega)
      (by omega) hl
    refine ⟨l, hl, ?_, hheads.1, fun e he => ⟨(hs e he).1, (hs e he).2.1⟩, ?_⟩
    · rcases hlen with h | h
      · omega
      · rw [h]; simp
    · rcases hend with h | ⟨e, h1, h2, h3, _⟩
      · exact Or.inl h
      · exact Or.inr ⟨e, h1, h2, h3⟩
  rw [hstart]
  refine ⟨?_, hloop⟩
  by_cases hp : (probe conn mf 56 w).1 = .replyError
  · exact ⟨_, Run.full_unreachable conn mf fuel w hp, by simp⟩
  · obtain ⟨l, hl, _, _, hfull⟩ := Run.full_searching conn mf fuel w hstart hfuel hp
    obtain ⟨l', hl', hlen, _⟩ := hloop 1 0 (probe conn mf 56 w).2
    rw [hl] at hl'
    cases hl'
    exact ⟨_, hfull, hlen⟩

/-- C5 in a world where nothing ever gets through. -/
theorem Run_main_loop_terminates_witness :
    ∃ r, Run.full (thresholdConn 0 "192.0.2.1" 7) mfExample 19951 () = some r ∧
      r.log.length ≤ 19951 :=
  (Run_main_loop_terminates (thresholdConn 0 "192.0.2.1" 7) mfExample 19951 () rfl (by decide)).1

/-- C6. Started as `New` leaves it (`size = 50`, `inc = 500`), `Run` returns and
every size its main loop passed to `send` is strictly positive. -/
theorem Run_sizes_positive (conn : PacketConn σ) (mf : MTUFind) (fuel : Nat) (w : σ)
    (hstart : mf.startSize = 50) (hfuel : 19951 ≤ fuel) :
    ∃ r, Run.full conn mf fuel w = some r ∧ ∀ e ∈ r.log, 0 < e.size := by
  by_cases hp : (probe conn mf 56 w).1 = .replyError
  · exact ⟨_, Run.full_unreachable conn mf fuel w hp, by simp⟩
  · obtain ⟨l, hl, _, _, hfull⟩ := Run.full_searching conn mf fuel w hstart hfuel hp
    refine ⟨_, hfull, ?_⟩
    intro e he
    have := Run.loop_sizes conn mf fuel 50 500 1 0 _ l (by omega) (by omega) (by omega) hl e he
    simp only [ProbeLog.head] at this
    omega

/-- C6 in a world where nothing ever gets through. -/
theorem Run_sizes_positive_witness :
    ∃ r, Run.full (thresholdConn 0 "192.0.2.1" 7) mfExample 19951 () = some r ∧
      ∀ e ∈ r.log, 0 < e.size :=
  Run_sizes_positive (thresholdConn 0 "192.0.2.1" 7) mfExample 19951 () rfl (by decide)


/-- A pass whose probe is answered: the loop goes on from the probed size. -/
theorem Run.loop_step_ok (conn : PacketConn σ) (mf : MTUFind) (fuel : Nat)
    (size inc count maxSize : Int) (w : σ) (size' maxSize' : Int) (hsz : size + inc = size')
    (hmax : (if size' > maxSize then size' else maxSize) = maxSize') (h50 : 50 ≤ size)
    (hs : size ≤ 20000) (hi1 : 1 ≤ inc) (hi2 : inc ≤ 500)
    (hp : (probe conn mf size' w).1 = .received) :
    Run.loop conn mf (fuel + 1) size inc count maxSize w =
      (Run.loop conn mf fuel size' inc (addInt count 1) maxSize' (probe conn mf size' w).2).map
        (LoopEnd.push ⟨count, size', inc, maxSize, .received⟩) := by
  subst hsz hmax
  rw [Run.loop_succ conn mf _ _ _ _ _ _ hs, addInt_eq (isInt_small (by omega) (by omega))]
  rcases hq : probe conn mf (size + inc) w with ⟨res, w'⟩
  rw [hq] at hp
  simp only [] at hp
  subst hp
  rfl

/-- A pass whose probe fails with `inc > 1`: the loop goes on one byte above the
head, with the next increment. -/
theorem Run.loop_step_fail (conn : PacketConn σ) (mf : MTUFind) (fuel : Nat)
    (size inc count maxSize : Int) (w : σ) (size' head' inc' : Int) (hsz : size + inc = size')
    (hhead : size + 1 = head') (hinc : nextInc inc = inc') (h50 : 50 ≤ size)
    (hs : size ≤ 20000) (hi1 : 1 < inc) (hi2 : inc ≤ 500)
    (hp : (probe conn mf size' w).1 ≠ .received) :
    Run.loop conn mf (fuel + 1) size inc count maxSize w =
      (Run.loop conn mf fuel head' inc' (addInt count 1) maxSize (probe conn mf size' w).2).map
        (LoopEnd.push ⟨count, size', inc, maxSize, (probe conn mf size' w).1⟩) := by
  subst hsz hhead hinc
  rw [Run.loop_succ conn mf _ _ _ _ _ _ hs, addInt_eq (isInt_small (by omega) (by omega))]
  rcases hq : probe conn mf (size + inc) w with ⟨res, w'⟩
  rw [hq] at hp
  simp only [] at hp
  have e : size + inc - (inc - 1) = size + 1 := by omega
  cases res
  case received => exact absurd rfl hp
  all_goals
    simp only []
    rw [if_neg (by omega), resizer_small mf (by omega) (by omega) (by omega) hi2, e]

/-- A pass whose probe fails with `inc == 1`: the loop is left. -/
theorem Run.loop_step_break (conn : PacketConn σ) (mf : MTUFind) (fuel : Nat)
    (size count maxSize : Int) (w : σ) (size' : Int) (hsz : size + 1 = size') (h50 : 50 ≤ size)
    (hs : size ≤ 20000) (hp : (probe conn mf size' w).1 ≠ .received) :
    Run.loop conn mf (fuel + 1) size 1 count maxSize w =
      some ⟨size', 1, addInt count 1, maxSize, (probe conn mf size' w).2,
        [⟨count, size', 1, maxSize, (probe conn mf size' w).1⟩]⟩ := by
  subst hsz
  rw [Run.loop_succ conn mf _ _ _ _ _ _ hs, addInt_eq (isInt_small (by omega) (by omega))]
  rcases hq : probe conn mf (size + 1) w with ⟨res, w'⟩
  rw [hq] at hp
  simp only [] at hp
  cases res
  case received => exact absurd rfl hp
  all_goals simp

/-- The first pass of a loop that is entered probes `size + inc`. -/
theorem Run.loop_first (conn : PacketConn σ) (mf : MTUFind) (fuel : Nat)
    (size inc count maxSize : Int) (w : σ) (r : LoopEnd σ) (h50 : 50 ≤ size) (hi1 : 1 ≤ inc)
    (hi2 : inc ≤ 500) (h : Run.loop conn mf fuel size inc count maxSize w = some r)
    (hs : size ≤ 20000) :
    ∃ res, r.log.head? = some ⟨count, size + inc, inc, maxSize, res⟩ := by
  refine Run.loop_induction conn mf
    (fun size inc count maxSize _ r => size ≤ 20000 →
      ∃ res, r.log.head? = some ⟨count, size + inc, inc, maxSize, res⟩)
    ?_ ?_ ?_ ?_ fuel size inc count maxSize w r h50 hi1 hi2 h hs
  · intro size inc count maxSize w h1 h2
    omega
  · intro size count maxSize w res w' _ _ _ _ _
    exact ⟨res, rfl⟩
  · intro size inc count maxSize w res w' r _ _ _ _ _ _ _ _
    exact ⟨res, rfl⟩
  · intro size inc count maxSize w w' r _ _ _ _ _ _ _
    exact ⟨_, rfl⟩

/-- In the world `thresholdConn T dst id` a probe to `dst` with identifier `id` is
answered when it has at most `T` bytes and fails at `send` otherwise. -/
theorem probe_thresholdConn (T : Int) (dst : String) (id : Int) (to4 : Bool) (start : Int)
    (size : Int) (w : Unit) (h0 : 0 ≤ size) (h1 : size ≤ 1000000) :
    (probe (thresholdConn T dst id) ⟨⟨dst, to4⟩, start, id⟩ size w).1 =
      if size ≤ T then .received else .sendError := by
  have hlen : (header ⟨⟨dst, to4⟩, start, id⟩ size).TotalLen = size + 28 := by
    have h28 : addInt ipv4.HeaderLen 8 = 28 := by decide
    simp only [header, h28]
    rw [addInt_eq (isInt_small (by omega) (by omega))]
    omega
  by_cases h : size ≤ T
  · simp [probe, send, receive, receive.loop, packetsCheck, thresholdConn, hlen, h]
  · simp [probe, send, thresholdConn, hlen, h]

/-- C4. Scenario A: when every probe of at most 2050 bytes is sent and answered and
`send` fails for every larger one (up to 20500 bytes, more are never probed), `Run`
returns 2078 with a nil error, its best size being 2050, after twelve passes of
the main loop. -/
theorem Run_scenario_A (conn : PacketConn σ) (mf : MTUFind) (fuel : Nat) (w : σ)
    (hstart : mf.startSize = 50) (hfuel : 19951 ≤ fuel)
    (hok : ∀ size w, 56 ≤ size → size ≤ 2050 → (probe conn mf size w).1 = .received)
    (hfail : ∀ size w, 2050 < size → size ≤ 20500 → (probe conn mf size w).1 = .sendError) :
    Run conn mf fuel w = some (2050 + 28, none) ∧
      ∃ r, Run.full conn mf fuel w = some r ∧ r.ret = 2078 ∧ r.err = none ∧
        r.log.map (fun e => (e.size, e.result)) =
          [(550, .received), (1050, .received), (1550, .received), (2050, .received),
            (2550, .sendError), (2301, .sendError), (2177, .sendError), (2115, .sendError),
            (2085, .sendError), (2070, .sendError), (2063, .sendError), (2058, .sendError)] := by
  have hp : (probe conn mf 56 w).1 ≠ .replyError := by
    rw [hok 56 w (by omega) (by omega)]; simp
  obtain ⟨l, hl, _, _, hfull⟩ := Run.full_searching conn mf fuel w hstart hfuel hp
  obtain ⟨k, rfl⟩ : ∃ k, fuel = k + 12 := ⟨fuel - 12, by omega⟩
  have hne : ∀ size w, 2050 < size → size ≤ 20500 →
      (probe conn mf size w).1 ≠ .received := by
    intro size w h h'; rw [hfail size w h h']; simp
  rw [Run.loop_step_ok conn mf _ 50 500 _ _ _ 550 550 (by decide) (by decide) (by omega)
      (by omega) (by omega) (by omega) (hok _ _ (by omega) (by omega)),
    Run.loop_step_ok conn mf _ 550 500 _ _ _ 1050 1050 (by decide) (by decide) (by omega)
      (by omega) (by omega) (by omega) (hok _ _ (by omega) (by omega)),
    Run.loop_step_ok conn mf _ 1050 500 _ _ _ 1550 1550 (by decide) (by decide) (by omega)
      (by omega) (by omega) (by omega) (hok _ _ (by omega) (by omega)),
    Run.loop_step_ok conn mf _ 1550 500 _ _ _ 2050 2050 (by decide) (by decide) (by omega)
      (by omega) (by omega) (by omega) (hok _ _ (by omega) (by omega)),
    Run.loop_step_fail conn mf _ 2050 500 _ _ _ 2550 2051 250 (by decide) (by decide)
      (by decide) (by omega) (by omega) (by omega) (by omega) (hne _ _ (by omega) (by omega)),
    Run.loop_step_fail conn mf _ 2051 250 _ _ _ 2301 2052 125 (by decide) (by decide)
      (by decide) (by omega) (by omega) (by omega) (by omega) (hne _ _ (by omega) (by omega)),
    Run.loop_step_fail conn mf _ 2052 125 _ _ _ 2177 2053 62 (by decide) (by decide)
      (by decide) (by omega) (by omega) (by omega) (by omega) (hne _ _ (by omega) (by omega)),
    Run.loop_step_fail conn mf _ 2053 62 _ _ _ 2115 2054 31 (by decide) (by decide)
      (by decide) (by omega) (by omega) (by omega) (by omega) (hne _ _ (by omega) (by omega)),
    Run.loop_step_fail conn mf _ 2054 31 _ _ _ 2085 2055 15 (by decide) (by decide)
      (by decide) (by omega) (by omega) (by omega) (by omega) (hne _ _ (by omega) (by omega)),
    Run.loop_step_fail conn mf _ 2055 15 _ _ _ 2070 2056 7 (by decide) (by decide)
      (by decide) (by omega) (by omega) (by omega) (by omega) (hne _ _ (by omega) (by omega)),
    Run.loop_step_fail conn mf _ 2056 7 _ _ _ 2063 2057 1 (by decide) (by decide)
      (by decide) (by omega) (by omega) (by omega) (by omega) (hne _ _ (by omega) (by omega)),
    Run.loop_step_break conn mf _ 2057 _ _ _ 2058 (by decide) (by omega) (by omega)
      (hne _ _ (by omega) (by omega))] at hl
  simp only [Option.map_some', Option.some.injEq] at hl
  subst hl
  simp only [LoopEnd.push] at hfull
  refine ⟨?_, _, hfull, ?_, rfl, ?_⟩
  · simp only [Run, hfull, Option.map_some']
    norm_num
  · norm_num
  · simp only [List.map_cons, List.map_nil]
    rw [hfail _ _ (by omega) (by omega), hfail _ _ (by omega) (by omega),
      hfail _ _ (by omega) (by omega), hfail _ _ (by omega) (by omega),
      hfail _ _ (by omega) (by omega), hfail _ _ (by omega) (by omega),
      hfail _ _ (by omega) (by omega), hfail _ _ (by omega) (by omega)]

/-- C4 in the world where exactly the probes up to 2050 bytes leave the host. -/
theorem Run_scenario_A_witness :
    Run (thresholdConn 2050 "192.0.2.1" 7) mfExample 19951 () = some (2050 + 28, none) :=
  (Run_scenario_A (thresholdConn 2050 "192.0.2.1" 7) mfExample 19951 () rfl (by decide)
    (fun size w h0 h1 => by
      rw [mfExample, probe_thresholdConn 2050 _ 7 true 50 size w (by omega) (by omega), if_pos h1])
    (fun size w h0 h1 => by
      rw [mfExample, probe_thresholdConn 2050 _ 7 true 50 size w (by omega) (by omega),
        if_neg (by omega)])).1


/-- C3 at the threshold 551. In the world where exactly the probes of at most 551
bytes are sent and answered, `Run` returns 578 = 550 + 28: the 551-byte payload,
which would get through, is never probed, and the result is not 551 + 28. -/
theorem Run_threshold_551 :
    (∀ size : Int, 0 ≤ size → size ≤ 20500 →
      (probe (thresholdConn 551 "192.0.2.1" 7) mfExample size ()).1 =
        if size ≤ 551 then .received else .sendError) ∧
    Run (thresholdConn 551 "192.0.2.1" 7) mfExample 19951 () = some (578, none) ∧
    (Run.full (thresholdConn 551 "192.0.2.1" 7) mfExample 19951 ()).map
        (fun r => r.log.map fun e => (e.size, e.result)) =
      some [(550, .received), (1050, .sendError), (801, .sendError), (677, .sendError),
        (615, .sendError), (585, .sendError), (570, .sendError), (563, .sendError),
        (558, .sendError)] ∧
    (578 : Int) ≠ 551 + 28 := by
  refine ⟨?_, by decide, by decide, by decide⟩
  intro size h0 h1
  rw [mfExample, probe_thresholdConn 551 _ 7 true 50 size () h0 (by omega)]

/-- C7. The reachability check of `Run`. When the 56-byte `send` fails, `receive`
is not called and `Run` goes into its main loop, in the world `send` left, and
returns a nil error; when that `send` succeeds and `receive` finds no reply, `Run`
returns `(-1, "Unreachable")` with an empty main-loop log, in the world `receive`
left; when both succeed, `Run` goes into its main loop and returns a nil error. A
main loop that is entered starts with the probe of 550 bytes. -/
theorem Run_reachability (conn : PacketConn σ) (mf : MTUFind) (fuel : Nat) (w : σ)
    (hstart : mf.startSize = 50) (hfuel : 19951 ≤ fuel) :
    ((send conn mf 56 w).1 ≠ none →
      ∃ l res, Run.loop conn mf fuel mf.startSize 500 1 0 (send conn mf 56 w).2 = some l ∧
        l.log.head? = some ⟨1, 550, 500, 0, res⟩ ∧
        Run.full conn mf fuel w = some ⟨28 + l.maxSize, none, l.log, l.world⟩ ∧
        Run conn mf fuel w = some (28 + l.maxSize, none)) ∧
    ((send conn mf 56 w).1 = none →
      (receive conn mf 56 (send conn mf 56 w).2).1 ≠ none →
      Run.full conn mf fuel w =
        some ⟨-1, some "Unreachable", [], (receive conn mf 56 (send conn mf 56 w).2).2⟩ ∧
      Run conn mf fuel w = some (-1, some "Unreachable")) ∧
    ((send conn mf 56 w).1 = none →
      (receive conn mf 56 (send conn mf 56 w).2).1 = none →
      ∃ l res,
        Run.loop conn mf fuel mf.startSize 500 1 0
          (receive conn mf 56 (send conn mf 56 w).2).2 = some l ∧
        l.log.head? = some ⟨1, 550, 500, 0, res⟩ ∧
        Run.full conn mf fuel w = some ⟨28 + l.maxSize, none, l.log, l.world⟩ ∧
        Run conn mf fuel w = some (28 + l.maxSize, none)) := by
  have hsearch : ∀ w', (probe conn mf 56 w).1 ≠ .replyError → (probe conn mf 56 w).2 = w' →
      ∃ l res, Run.loop conn mf fuel mf.startSize 500 1 0 w' = some l ∧
        l.log.head? = some ⟨1, 550, 500, 0, res⟩ ∧
        Run.full conn mf fuel w = some ⟨28 + l.maxSize, none, l.log, l.world⟩ ∧
        Run conn mf fuel w = some (28 + l.maxSize, none) := by
    intro w' hp hw
    obtain ⟨l, hl, _, _, hfull⟩ := Run.full_searching conn mf fuel w hstart hfuel hp
    rw [hw] at hl
    obtain ⟨res, hres⟩ := Run.loop_first conn mf fuel 50 500 1 0 w' l (by omega) (by omega)
      (by omega) hl (by omega)
    refine ⟨l, res, by rw [hstart]; exact hl, hres, hfull, ?_⟩
    simp only [Run, hfull, Option.map_some']
  rcases probe_cases conn mf 56 w with ⟨hp, hs⟩ | ⟨hp, hs, hr⟩ | ⟨hp, hs, hr⟩
  · refine ⟨fun _ => hsearch _ (by rw [hp]; simp) (by rw [hp]), fun h => absurd h hs,
      fun h => absurd h hs⟩
  · refine ⟨fun h => absurd hs h, fun _ _ => ?_, fun _ h => absurd h hr⟩
    have hfull := Run.full_unreachable conn mf fuel w (by rw [hp])
    rw [hp] at hfull
    exact ⟨hfull, by simp only [Run, hfull, Option.map_some']⟩
  · refine ⟨fun h => absurd hs h, fun _ h => absurd hr h,
      fun _ _ => hsearch _ (by rw [hp]; simp) (by rw [hp])⟩

/-- C7 in a world where the destination never answers: `Run` is `Unreachable`. -/
theorem Run_reachability_witness :
    Run (streamConn parseToy) mfExample 19951 [] = some (-1, some "Unreachable") :=
  ((Run_reachability (streamConn parseToy) mfExample 19951 [] rfl (by decide)).2.1
    (by decide) (by decide)).2

/-- C8. `Run` returns, and its error is non-nil exactly when the 56-byte `send` of
the reachability check succeeded and the `receive` after it failed, the value
then being -1; in every other case, whatever `send` and `receive` answer in the
main loop, the error is nil and the value is at least 28. -/
theorem Run_error_iff (conn : PacketConn σ) (mf : MTUFind) (fuel : Nat) (w : σ)
    (hstart : mf.startSize = 50) (hfuel : 19951 ≤ fuel) :
    ∃ v err, Run conn mf fuel w = some (v, err) ∧
      (err ≠ none ↔ ((send conn mf 56 w).1 = none ∧
        (receive conn mf 56 (send conn mf 56 w).2).1 ≠ none)) ∧
      (err = none → 28 ≤ v) ∧ (err ≠ none → v = -1 ∧ err = some "Unreachable") := by
  rcases probe_cases conn mf 56 w with ⟨hp, hs⟩ | ⟨hp, hs, hr⟩ | ⟨hp, hs, hr⟩
  · obtain ⟨l, _, h0, _, hfull⟩ :=
      Run.full_searching conn mf fuel w hstart hfuel (by rw [hp]; simp)
    refine ⟨28 + l.maxSize, none, by simp only [Run, hfull, Option.map_some'], ?_, ?_, ?_⟩
    · simp [hs]
    · intro _; omega
    · intro h; exact absurd rfl h
  · have hfull := Run.full_unreachable conn mf fuel w (by rw [hp])
    refine ⟨-1, some "Unreachable", by simp only [Run, hfull, Option.map_some'], ?_, ?_, ?_⟩
    · simp [hs, hr]
    · intro h; simp at h
    · intro _; exact ⟨rfl, rfl⟩
  · obtain ⟨l, _, h0, _, hfull⟩ :=
      Run.full_searching conn mf fuel w hstart hfuel (by rw [hp]; simp)
    refine ⟨28 + l.maxSize, none, by simp only [Run, hfull, Option.map_some'], ?_, ?_, ?_⟩
    · simp [hr]
    · intro _; omega
    · intro h; exact absurd rfl h

/-- C8 in a world where nothing ever gets through: the run still returns. -/
theorem Run_error_iff_witness :
    ∃ v err, Run (thresholdConn 0 "192.0.2.1" 7) mfExample 19951 () = some (v, err) ∧
      (err ≠ none ↔ ((send (thresholdConn 0 "192.0.2.1" 7) mfExample 56 ()).1 = none ∧
        (receive (thresholdConn 0 "192.0.2.1" 7) mfExample 56
          (send (thresholdConn 0 "192.0.2.1" 7) mfExample 56 ()).2).1 ≠ none)) ∧
      (err = none → 28 ≤ v) ∧ (err ≠ none → v = -1 ∧ err = some "Unreachable") :=
  Run_error_iff (thresholdConn 0 "192.0.2.1" 7) mfExample 19951 () rfl (by decide)


/-! ## receive -/

/-- In any world, `receive` returns nil only after a read that returned a match. -/
theorem receive.loop_none (conn : PacketConn σ) (mf : MTUFind) :
    ∀ (left : Nat) (w : σ), (receive.loop conn mf left w).1 = none →
      ∃ w1 d, (conn.ReadFrom w1).1 = some d ∧ isMatch conn mf d := by
  intro left
  induction left with
  | zero =>
    intro w h
    simp [receive.loop] at h
  | succ left ih =>
    intro w h
    rw [receive.loop] at h
    rcases hd : conn.SetReadDeadline w with ⟨_ | e, w1⟩
    · rw [hd] at h
      simp only [] at h
      rcases hr : conn.ReadFrom w1 with ⟨_ | ⟨reply, peer⟩, w2⟩
      · rw [hr] at h
        simp at h
      · rw [hr] at h
        simp only [] at h
        rcases hpm : conn.ParseMessage (ipv4.ICMPType.Protocol ipv4.ICMPTypeEcho) reply
          with e | parse
        · rw [hpm] at h
          simp at h
        · rw [hpm] at h
          simp only [] at h
          rcases hb : parse.Body with ⟨ID, Seq, Data⟩ | kind
          · rw [hb] at h
            simp only [] at h
            by_cases hpeer : peer = mf.Destination.String
            · by_cases hid : ID = mf.ID
              · exact ⟨w1, (reply, peer), by rw [hr], parse, ID, Seq, Data, hpm, hb, hpeer, hid⟩
              · rw [if_neg (not_not.mpr hpeer), if_pos hid] at h
                exact ih w2 h
            · rw [if_pos hpeer] at h
              exact ih w2 h
          · rw [hb] at h
            exact ih w2 h
    · rw [hd] at h
      simp at h

/-- On a stream, `receive` returns nil only at a match among the datagrams it read,
and leaves the stream right after that datagram. -/
theorem receive.loop_stream_none (parse : List Nat → Except String Message) (mf : MTUFind) :
    ∀ (left : Nat) (s : List (Option (List Nat × String))),
      (receive.loop (streamConn parse) mf left s).1 = none →
      ∃ k d, k < left ∧ s[k]? = some (some d) ∧ isMatch (streamConn parse) mf d ∧
        (receive.loop (streamConn parse) mf left s).2 = s.drop (k + 1) := by
  intro left
  induction left with
  | zero =>
    intro s h
    simp [receive.loop] at h
  | succ left ih =>
    intro s h
    have next : ∀ d rest, s = some d :: rest →
        receive.loop (streamConn parse) mf (left + 1) s =
          receive.loop (streamConn parse) mf left rest →
        ∃ k d, k < left + 1 ∧ s[k]? = some (some d) ∧ isMatch (streamConn parse) mf d ∧
          (receive.loop (streamConn parse) mf (left + 1) s).2 = s.drop (k + 1) := by
      intro d rest hs heq
      rw [heq] at h ⊢
      obtain ⟨k, d', hk, hget, hm, hdrop⟩ := ih rest h
      subst hs
      exact ⟨k + 1, d', by omega, by simpa using hget, hm, by simpa using hdrop⟩
    rcases s with _ | ⟨_ | ⟨reply, peer⟩, rest⟩
    · simp [receive.loop, streamConn] at h
    · simp [receive.loop, streamConn] at h
    · have hstep : receive.loop (streamConn parse) mf (left + 1) (some (reply, peer) :: rest) =
          match parse reply with
          | .error err => (some err, rest)
          | .ok m =>
            match m.Body with
            | .Echo ID _ _ =>
              if peer ≠ mf.Destination.String then receive.loop (streamConn parse) mf left rest
              else if ID ≠ mf.ID then receive.loop (streamConn parse) mf left rest
              else (none, rest)
            | .Other _ => receive.loop (streamConn parse) mf left rest := by
        rw [receive.loop]
        rfl
      rcases hpm : parse reply with e | m
      · rw [hstep, hpm] at h
        simp at h
      · rw [hpm] at hstep
        simp only [] at hstep
        rcases hb : m.Body with ⟨ID, Seq, Data⟩ | kind
        · rw [hb] at hstep
          simp only [] at hstep
          by_cases hpeer : peer = mf.Destination.String
          · by_cases hid : ID = mf.ID
            · rw [if_neg (not_not.mpr hpeer), if_neg (not_not.mpr hid)] at hstep
              refine ⟨0, (reply, peer), by omega, by simp,
                ⟨m, ID, Seq, Data, hpm, hb, hpeer, hid⟩, ?_⟩
              rw [hstep]
              rfl
            · rw [if_neg (not_not.mpr hpeer), if_pos hid] at hstep
              exact next _ _ rfl hstep
          · rw [if_pos hpeer] at hstep
            exact next _ _ rfl hstep
        · rw [hb] at hstep
          exact next _ _ rfl hstep

/-- C9. `receive` reports a match only through an echo body from the destination
with the session's identifier. On every datagram stream, a nil result means that
one of the first ten datagrams, the last one read, is such a match; so on a
stream none of whose datagrams is one (each echo has another sender or another
identifier) `receive` returns an error. The same holds in every world: where no
read ever returns a match, `receive` returns an error. -/
theorem receive_match_only (parse : List Nat → Except String Message) (mf : MTUFind)
    (size : Int) (s : List (Option (List Nat × String))) :
    ((receive (streamConn parse) mf size s).1 = none →
      ∃ k d, k < 10 ∧ s[k]? = some (some d) ∧ isMatch (streamConn parse) mf d ∧
        (receive (streamConn parse) mf size s).2 = s.drop (k + 1)) ∧
    ((∀ d m ID Seq Data, some d ∈ s → parse d.1 = .ok m → m.Body = .Echo ID Seq Data →
        d.2 ≠ mf.Destination.String ∨ ID ≠ mf.ID) →
      (receive (streamConn parse) mf size s).1 ≠ none) ∧
    (∀ (τ : Type) (conn : PacketConn τ) (w : τ),
      (∀ w1 d, (conn.ReadFrom w1).1 = some d → ¬ isMatch conn mf d) →
      (receive conn mf size w).1 ≠ none) := by
  refine ⟨receive.loop_stream_none parse mf packetsCheck s, ?_, ?_⟩
  · intro hall hnone
    obtain ⟨k, d, _, hget, ⟨m, ID, Seq, Data, hpm, hb, hpeer, hid⟩, _⟩ :=
      receive.loop_stream_none parse mf packetsCheck s hnone
    rcases hall d m ID Seq Data (List.getElem?_mem hget) hpm hb with h | h
    · exact h hpeer
    · exact h hid
  · intro τ conn w hall hnone
    obtain ⟨w1, d, hr, hm⟩ := receive.loop_none conn mf packetsCheck w hnone
    exact hall w1 d hr hm

/-- A datagram that parses and is not a match is skipped: the loop goes on with one
pass less. -/
theorem receive.loop_stream_skip (parse : List Nat → Except String Message) (mf : MTUFind)
    (left : Nat) (d : List Nat × String) (rest : List (Option (List Nat × String)))
    (hparse : ∃ m, parse d.1 = .ok m) (hno : ¬ isMatch (streamConn parse) mf d) :
    receive.loop (streamConn parse) mf (left + 1) (some d :: rest) =
      receive.loop (streamConn parse) mf left rest := by
  obtain ⟨reply, peer⟩ := d
  obtain ⟨m, hpm⟩ := hparse
  have hstep : receive.loop (streamConn parse) mf (left + 1) (some (reply, peer) :: rest) =
      match parse reply with
      | .error err => (some err, rest)
      | .ok m =>
        match m.Body with
        | .Echo ID _ _ =>
          if peer ≠ mf.Destination.String then receive.loop (streamConn parse) mf left rest
          else if ID ≠ mf.ID then receive.loop (streamConn parse) mf left rest
          else (none, rest)
        | .Other _ => receive.loop (streamConn parse) mf left rest := by
    rw [receive.loop]
    rfl
  simp only [] at hpm
  rw [hstep, hpm]
  simp only []
  rcases hb : m.Body with ⟨ID, Seq, Data⟩ | kind
  · simp only []
    by_cases hpeer : peer = mf.Destination.String
    · by_cases hid : ID = mf.ID
      · exact absurd ⟨m, ID, Seq, Data, hpm, hb, hpeer, hid⟩ hno
      · rw [if_neg (not_not.mpr hpeer), if_pos hid]
    · rw [if_pos hpeer]
  · rfl

/-- After datagrams that parse and are not matches, a read that times out ends the
loop with the error `timeout`, when a pass was left for it. -/
theorem receive.loop_stream_timeout (parse : List Nat → Except String Message) (mf : MTUFind)
    (rest : List (Option (List Nat × String))) :
    ∀ (pre : List (List Nat × String)) (left : Nat), pre.length < left →
      (∀ d ∈ pre, (∃ m, parse d.1 = .ok m) ∧ ¬ isMatch (streamConn parse) mf d) →
      receive.loop (streamConn parse) mf left (pre.map some ++ none :: rest) =
        (some "timeout", rest) := by
  intro pre
  induction pre with
  | nil =>
    intro left hlen _
    obtain ⟨n, rfl⟩ : ∃ n, left = n + 1 := ⟨left - 1, by simp at hlen; omega⟩
    rfl
  | cons d pre ih =>
    intro left hlen hpre
    obtain ⟨n, rfl⟩ : ∃ n, left = n + 1 := ⟨left - 1, by simp at hlen; omega⟩
    have hd := hpre d (List.mem_cons_self _ _)
    simp only [List.map_cons, List.cons_append]
    rw [receive.loop_stream_skip parse mf n d _ hd.1 hd.2]
    exact ih n (by simp at hlen; omega) (fun d' hd' => hpre d' (List.mem_cons_of_mem _ hd'))

/-- C10 fails. On the stream whose first read times out and whose second datagram is
an echo reply from the destination with the session's identifier, `receive`
returns the error `timeout` and leaves the reply unread. -/
theorem receive_timeout_counterexample :
    isMatch (streamConn parseToy) mfExample ([0, 7], "192.0.2.1") ∧
    receive (streamConn parseToy) mfExample 56 [none, some ([0, 7], "192.0.2.1")] =
      (some "timeout", [some ([0, 7], "192.0.2.1")]) ∧
    ¬ (∀ (parse : List Nat → Except String Message) (mf : MTUFind) (size : Int)
        (s : List (Option (List Nat × String))) (k j : Nat) (d : List Nat × String),
        k < j → j < 10 → s[k]? = some none → s[j]? = some (some d) →
        isMatch (streamConn parse) mf d → (receive (streamConn parse) mf size s).1 = none) := by
  have hm : isMatch (streamConn parseToy) mfExample ([0, 7], "192.0.2.1") :=
    ⟨⟨0, 0, .Echo 7 0 []⟩, 7, 0, [], rfl, rfl, rfl, rfl⟩
  refine ⟨hm, rfl, ?_⟩
  intro h
  have := h parseToy mfExample 56 [none, some ([0, 7], "192.0.2.1")] 0 1 _ (by decide)
    (by decide) rfl rfl hm
  exact absurd this (by decide)

/-- C10 as the code has it. A read that times out ends `receive` at once, on any
attempt: when the first `k < 10` datagrams parse and are not matches and the
next read times out, `receive` returns the error `timeout` and reads nothing of
what follows, a match or not. -/
theorem receive_timeout_ends (parse : List Nat → Except String Message) (mf : MTUFind)
    (size : Int) (pre : List (List Nat × String)) (rest : List (Option (List Nat × String)))
    (hlen : pre.length < 10)
    (hpre : ∀ d ∈ pre, (∃ m, parse d.1 = .ok m) ∧ ¬ isMatch (streamConn parse) mf d) :
    receive (streamConn parse) mf size (pre.map some ++ none :: rest) =
      (some "timeout", rest) :=
  receive.loop_stream_timeout parse mf rest pre packetsCheck hlen hpre

/-- C10 as the code has it, after one datagram from another host: the match that
follows the timeout is left unread. -/
theorem receive_timeout_ends_witness :
    receive (streamConn parseToy) mfExample 56
        ([([0, 7], "198.51.100.9")].map some ++ none :: [some ([0, 7], "192.0.2.1")]) =
      (some "timeout", [some ([0, 7], "192.0.2.1")]) :=
  receive_timeout_ends parseToy mfExample 56 [([0, 7], "198.51.100.9")]
    [some ([0, 7], "192.0.2.1")] (by decide) (by
      intro d hd
      simp only [List.mem_singleton] at hd
      subst hd
      refine ⟨⟨_, rfl⟩, ?_⟩
      rintro ⟨m, ID, Seq, Data, _, _, hpeer, _⟩
      exact absurd hpeer (by decide))


/-- A datagram that is a match ends the loop with a nil error. -/
theorem receive.loop_stream_match (parse : List Nat → Except String Message) (mf : MTUFind)
    (left : Nat) (d : List Nat × String) (rest : List (Option (List Nat × String)))
    (hd : isMatch (streamConn parse) mf d) :
    receive.loop (streamConn parse) mf (left + 1) (some d :: rest) = (none, rest) := by
  obtain ⟨reply, peer⟩ := d
  obtain ⟨m, ID, Seq, Data, hpm, hb, hpeer, hid⟩ := hd
  have hpm' : parse reply = .ok m := hpm
  have hstep : receive.loop (streamConn parse) mf (left + 1) (some (reply, peer) :: rest) =
      match parse reply with
      | .error err => (some err, rest)
      | .ok m =>
        match m.Body with
        | .Echo ID _ _ =>
          if peer ≠ mf.Destination.String then receive.loop (streamConn parse) mf left rest
          else if ID ≠ mf.ID then receive.loop (streamConn parse) mf left rest
          else (none, rest)
        | .Other _ => receive.loop (streamConn parse) mf left rest := by
    rw [receive.loop]
    rfl
  simp only [] at hpeer
  rw [hstep, hpm']
  simp only [hb]
  rw [if_neg (not_not.mpr hpeer), if_neg (not_not.mpr hid)]

/-- A datagram that does not parse ends the loop with the error of the parser. -/
theorem receive.loop_stream_malformed (parse : List Nat → Except String Message)
    (mf : MTUFind) (left : Nat) (d : List Nat × String)
    (rest : List (Option (List Nat × String))) (err : String) (hd : parse d.1 = .error err) :
    receive.loop (streamConn parse) mf (left + 1) (some d :: rest) = (some err, rest) := by
  obtain ⟨reply, peer⟩ := d
  have hstep : receive.loop (streamConn parse) mf (left + 1) (some (reply, peer) :: rest) =
      match parse reply with
      | .error err => (some err, rest)
      | .ok m =>
        match m.Body with
        | .Echo ID _ _ =>
          if peer ≠ mf.Destination.String then receive.loop (streamConn parse) mf left rest
          else if ID ≠ mf.ID then receive.loop (streamConn parse) mf left rest
          else (none, rest)
        | .Other _ => receive.loop (streamConn parse) mf left rest := by
    rw [receive.loop]
    rfl
  simp only [] at hd
  rw [hstep, hd]

/-- Datagrams that parse and are not matches use up one pass each. -/
theorem receive.loop_stream_skips (parse : List Nat → Except String Message) (mf : MTUFind)
    (s : List (Option (List Nat × String))) (left : Nat) :
    ∀ pre : List (List Nat × String),
      (∀ d ∈ pre, (∃ m, parse d.1 = .ok m) ∧ ¬ isMatch (streamConn parse) mf d) →
      receive.loop (streamConn parse) mf (pre.length + left) (pre.map some ++ s) =
        receive.loop (streamConn parse) mf left s := by
  intro pre
  induction pre with
  | nil =>
    intro _
    simp
  | cons d pre ih =>
    intro hpre
    have hd := hpre d (List.mem_cons_self _ _)
    have e : (d :: pre).length + left = (pre.length + left) + 1 := by
      simp only [List.length_cons]; omega
    simp only [List.map_cons, List.cons_append]
    rw [e, receive.loop_stream_skip parse mf _ d _ hd.1 hd.2]
    exact ih (fun d' hd' => hpre d' (List.mem_cons_of_mem _ hd'))

/-- Counting the reads changes nothing else, and a loop with `left` passes to go
reads at most `left` times. -/
theorem receive.loop_count (conn : PacketConn σ) (mf : MTUFind) :
    ∀ (left : Nat) (w : σ) (c : Nat),
      (receive.loop (countConn conn) mf left (w, c)).1 = (receive.loop conn mf left w).1 ∧
      (receive.loop (countConn conn) mf left (w, c)).2.1 = (receive.loop conn mf left w).2 ∧
      c ≤ (receive.loop (countConn conn) mf left (w, c)).2.2 ∧
      (receive.loop (countConn conn) mf left (w, c)).2.2 ≤ c + left := by
  intro left
  induction left with
  | zero =>
    intro w c
    simp [receive.loop]
  | succ left ih =>
    intro w c
    have hparse : (countConn conn).ParseMessage = conn.ParseMessage := rfl
    rw [receive.loop, receive.loop]
    rcases hd : conn.SetReadDeadline w with ⟨_ | e, w1⟩
    · have hd' : (countConn conn).SetReadDeadline (w, c) = (none, w1, c) := by
        simp only [countConn, hd]
      rw [hd']
      simp only []
      rcases hr : conn.ReadFrom w1 with ⟨_ | ⟨reply, peer⟩, w2⟩
      · have hr' : (countConn conn).ReadFrom (w1, c) = (none, w2, c + 1) := by
          simp only [countConn, hr]
        rw [hr']
        exact ⟨rfl, rfl, by simp only []; omega, by simp only []; omega⟩
      · have hr' : (countConn conn).ReadFrom (w1, c) = (some (reply, peer), w2, c + 1) := by
          simp only [countConn, hr]
        rw [hr', hparse]
        simp only []
        have h := ih w2 (c + 1)
        rcases conn.ParseMessage (ipv4.ICMPType.Protocol ipv4.ICMPTypeEcho) reply with e | parse
        · exact ⟨rfl, rfl, by simp only []; omega, by simp only []; omega⟩
        · simp only []
          rcases parse.Body with ⟨ID, Seq, Data⟩ | kind
          · simp only []
            split
            · exact ⟨h.1, h.2.1, by omega, by omega⟩
            · split
              · exact ⟨h.1, h.2.1, by omega, by omega⟩
              · exact ⟨rfl, rfl, by simp only []; omega, by simp only []; omega⟩
          · simp only []
            exact ⟨h.1, h.2.1, by omega, by omega⟩
    · have hd' : (countConn conn).SetReadDeadline (w, c) = (some e, w1, c) := by
        simp only [countConn, hd]
      rw [hd']
      exact ⟨rfl, rfl, by simp only []; omega, by simp only []; omega⟩

/-- C11 fails. On the stream whose first datagram does not parse and whose second is
an echo reply from the destination with the session's identifier, `receive`
returns the error of the parser and leaves the reply unread. -/
theorem receive_malformed_counterexample :
    parseToy [9] = .error "message too short" ∧
    isMatch (streamConn parseToy) mfExample ([0, 7], "192.0.2.1") ∧
    receive (streamConn parseToy) mfExample 56
        [some ([9], "192.0.2.1"), some ([0, 7], "192.0.2.1")] =
      (some "message too short", [some ([0, 7], "192.0.2.1")]) ∧
    ¬ (∀ (parse : List Nat → Except String Message) (mf : MTUFind) (size : Int)
        (s : List (Option (List Nat × String))) (k j : Nat) (bad d : List Nat × String)
        (err : String),
        k < j → j < 10 → s[k]? = some (some bad) → parse bad.1 = .error err →
        s[j]? = some (some d) → isMatch (streamConn parse) mf d →
        (receive (streamConn parse) mf size s).1 = none) := by
  have hm : isMatch (streamConn parseToy) mfExample ([0, 7], "192.0.2.1") :=
    ⟨⟨0, 0, .Echo 7 0 []⟩, 7, 0, [], rfl, rfl, rfl, rfl⟩
  refine ⟨rfl, hm, rfl, ?_⟩
  intro h
  have := h parseToy mfExample 56 [some ([9], "192.0.2.1"), some ([0, 7], "192.0.2.1")] 0 1
    ([9], "192.0.2.1") _ "message too short" (by decide) (by decide) rfl rfl rfl hm
  exact absurd this (by decide)

/-- C11 as the code has it. A datagram that does not parse ends `receive` at once
with the error of the parser: when the first `k < 10` datagrams parse and are not
matches and the next one does not parse, `receive` returns that error and reads
nothing of what follows, a match or not. -/
theorem receive_malformed_ends (parse : List Nat → Except String Message) (mf : MTUFind)
    (size : Int) (pre : List (List Nat × String)) (bad : List Nat × String) (err : String)
    (rest : List (Option (List Nat × String))) (hlen : pre.length < 10)
    (hpre : ∀ d ∈ pre, (∃ m, parse d.1 = .ok m) ∧ ¬ isMatch (streamConn parse) mf d)
    (hbad : parse bad.1 = .error err) :
    receive (streamConn parse) mf size (pre.map some ++ some bad :: rest) =
      (some err, rest) := by
  obtain ⟨n, hn⟩ : ∃ n, packetsCheck = pre.length + (n + 1) :=
    ⟨9 - pre.length, by simp only [packetsCheck]; omega⟩
  rw [receive, hn, receive.loop_stream_skips parse mf _ _ pre hpre,
    receive.loop_stream_malformed parse mf n bad rest err hbad]

/-- C11 as the code has it, after one datagram from another host: the match that
follows the malformed datagram is left unread. -/
theorem receive_malformed_ends_witness :
    receive (streamConn parseToy) mfExample 56
        ([([0, 7], "198.51.100.9")].map some ++
          some ([9], "192.0.2.1") :: [some ([0, 7], "192.0.2.1")]) =
      (some "message too short", [some ([0, 7], "192.0.2.1")]) :=
  receive_malformed_ends parseToy mfExample 56 [([0, 7], "198.51.100.9")] ([9], "192.0.2.1")
    "message too short" [some ([0, 7], "192.0.2.1")] (by decide) (by
      intro d hd
      simp only [List.mem_singleton] at hd
      subst hd
      refine ⟨⟨_, rfl⟩, ?_⟩
      rintro ⟨m, ID, Seq, Data, _, _, hpeer, _⟩
      exact absurd hpeer (by decide)) rfl

/-- C12. A call of `receive` reads at most ten times, in any world, and counting the
reads changes neither its result nor the world it leaves. On a stream, after
`k < 10` datagrams that parse and are not matches (another sender, another
identifier, or no echo body), a match ends the call with a nil error and
nothing after it is read; and after ten such datagrams the call ends with the
error `no reply`, whatever follows, be it a match. -/
theorem receive_budget (parse : List Nat → Except String Message) (mf : MTUFind)
    (size : Int) :
    (∀ (τ : Type) (conn : PacketConn τ) (w : τ) (c : Nat),
      (receive (countConn conn) mf size (w, c)).2.2 ≤ c + 10 ∧
      (receive (countConn conn) mf size (w, c)).1 = (receive conn mf size w).1 ∧
      (receive (countConn conn) mf size (w, c)).2.1 = (receive conn mf size w).2) ∧
    (∀ (pre : List (List Nat × String)) (d : List Nat × String)
      (rest : List (Option (List Nat × String))),
      pre.length < 10 →
      (∀ x ∈ pre, (∃ m, parse x.1 = .ok m) ∧ ¬ isMatch (streamConn parse) mf x) →
      isMatch (streamConn parse) mf d →
      receive (streamConn parse) mf size (pre.map some ++ some d :: rest) = (none, rest)) ∧
    (∀ (pre : List (List Nat × String)) (rest : List (Option (List Nat × String))),
      pre.length = 10 →
      (∀ x ∈ pre, (∃ m, parse x.1 = .ok m) ∧ ¬ isMatch (streamConn parse) mf x) →
      receive (streamConn parse) mf size (pre.map some ++ rest) = (some "no reply", rest)) ∧
    receive (streamConn parseToy) mfExample 56
        ((List.replicate 10 ([0, 8], "192.0.2.1")).map some ++ [some ([0, 7], "192.0.2.1")]) =
      (some "no reply", [some ([0, 7], "192.0.2.1")]) := by
  refine ⟨?_, ?_, ?_, by decide⟩
  · intro τ conn w c
    have h := receive.loop_count conn mf packetsCheck w c
    exact ⟨h.2.2.2, h.1, h.2.1⟩
  · intro pre d rest hlen hpre hd
    obtain ⟨n, hn⟩ : ∃ n, packetsCheck = pre.length + (n + 1) :=
      ⟨9 - pre.length, by simp only [packetsCheck]; omega⟩
    rw [receive, hn, receive.loop_stream_skips parse mf _ _ pre hpre,
      receive.loop_stream_match parse mf n d rest hd]
  · intro pre rest hlen hpre
    have hn : packetsCheck = pre.length + 0 := by simp only [packetsCheck]; omega
    rw [receive, hn, receive.loop_stream_skips parse mf _ _ pre hpre]
    rfl

/-! ## The probe packet -/

/-- C13. For every payload size `n >= 0` the header of the probe has total length
`20 + 8 + n` (Go's sum, which is the exact one as long as it is a Go integer),
header length 20, the flag Don't-Fragment (`Flags = 2`), TTL 64, protocol 1 and
the destination of the session; its ICMP message is an echo request (type 8) with
code 0, the identifier of the session, sequence 0 and `n` bytes of data, all
zero. -/
theorem probe_packet (mf : MTUFind) (n : Int) (h0 : 0 ≤ n) :
    (header mf n).TotalLen = addInt (addInt 20 8) n ∧
    (isInt (20 + 8 + n) → (header mf n).TotalLen = 20 + 8 + n) ∧
    (header mf n).Len = 20 ∧ (header mf n).Flags = 2 ∧ (header mf n).TTL = 64 ∧
    (header mf n).Protocol = 1 ∧ (header mf n).Dst = mf.Destination ∧
    (icmp mf n).Typ = ipv4.ICMPTypeEcho ∧ ipv4.ICMPTypeEcho = 8 ∧ (icmp mf n).Code = 0 ∧
    ∃ data, (icmp mf n).Body = .Echo mf.ID 0 data ∧ (data.length : Int) = n ∧
      ∀ b ∈ data, b = 0 := by
  have h28 : addInt 20 8 = 28 := by decide
  refine ⟨rfl, ?_, rfl, rfl, rfl, rfl, rfl, rfl, rfl, rfl, _, rfl, ?_, ?_⟩
  · intro h
    show addInt (addInt 20 8) n = 20 + 8 + n
    rw [h28, addInt_eq (by rw [show (28 : Int) + n = 20 + 8 + n by omega]; exact h)]
    omega
  · rw [List.length_replicate]
    omega
  · intro b hb
    exact (List.mem_replicate.mp hb).2

/-- C13 for the first probe of a run, 550 bytes. -/
theorem probe_packet_witness :
    (0 : Int) ≤ 550 ∧ (header mfExample 550).TotalLen = 20 + 8 + 550 :=
  ⟨by decide, (probe_packet mfExample 550 (by decide)).2.1 (by decide)⟩

/-! ## New -/

theorem Intn_range {n : Int} {r : Nat} {i : Int} (h : Intn n r = some i) :
    0 < n ∧ 0 ≤ i ∧ i < n := by
  unfold Intn at h
  split at h
  · exact absurd h (by simp)
  · simp only [Option.some.injEq] at h
    subst h
    have hn : 0 < n := by omega
    exact ⟨hn, Int.emod_nonneg _ (by omega), Int.emod_lt_of_pos _ hn⟩

/-- Whenever `New` returns a session, its destination is one of the IPv4 addresses
the name resolved to, chosen by the second draw, and not the loopback address. -/
theorem New_returns (host : Host) (destination : String) (sockets : Nat) (mf : MTUFind)
    (err : Error) (h : (New host destination sockets).1 = .returned (some mf, err)) :
    ∃ resolve46, host.LookupIP destination = .ok resolve46 ∧
      mf.Destination ∈ resolve46.filter (fun addr => addr.To4) ∧ mf.startSize = 50 ∧
      mf.Destination.String ≠ "127.0.0.1" ∧ err = none ∧ 0 ≤ mf.ID ∧ mf.ID < 65535 := by
  unfold New at h
  split at h
  · simp at h
  · split at h
    · simp at h
    · rename_i ID hID
      split at h
      · simp at h
      · rename_i resolve46 hl
        simp only [] at h
        split at h
        · simp at h
        · split at h
          · simp at h
          · rename_i ip hip
            split at h
            · simp at h
            · rename_i hne
              simp only [Outcome.returned.injEq, Prod.mk.injEq, Option.some.injEq] at h
              obtain ⟨rfl, rfl⟩ := h
              have hr := Intn_range hID
              exact ⟨resolve46, hl, List.getElem?_mem hip, rfl, hne, rfl, hr.2.1, hr.2.2⟩

/-- C14 at a name with no IPv4 address. When the raw socket opens and the lookup
gives addresses none of which is IPv4, `New` does not return: it panics in
`rand.Intn(0)`; so it does on the host where every name resolves to the one
address 2001:db8::1. Whenever `New` does return a session, the chosen address is
an element of the IPv4-filtered list. -/
theorem New_no_ipv4 :
    (∀ (host : Host) (destination : String) (sockets : Nat) (resolve46 : List IP),
      host.ListenPacket = none → host.LookupIP destination = .ok resolve46 →
      resolve46.filter (fun addr => addr.To4) = [] →
      (New host destination sockets).1 = .panicked "invalid argument to Intn") ∧
    New (hostExample [⟨"2001:db8::1", false⟩]) "example.org" 0 =
      (.panicked "invalid argument to Intn", 1) ∧
    (∀ (host : Host) (destination : String) (sockets : Nat) (mf : MTUFind) (err : Error),
      (New host destination sockets).1 = .returned (some mf, err) →
      ∃ resolve46, host.LookupIP destination = .ok resolve46 ∧
        mf.Destination ∈ resolve46.filter (fun addr => addr.To4)) := by
  refine ⟨?_, by decide, ?_⟩
  · intro host destination sockets resolve46 hlisten hlookup hnone
    have hid : Intn 65535 host.draws.1 = some ((host.draws.1 : Int) % 65535) := by
      simp [Intn]
    simp [New, hlisten, hid, hlookup, hnone, Intn]
  · intro host destination sockets mf err h
    obtain ⟨l, hl, hmem, _⟩ := New_returns host destination sockets mf err h
    exact ⟨l, hl, hmem⟩

/-- C15 fails. On a host where the raw socket opens and the name resolves to
127.0.0.1, `New` returns the error and no session, and one raw socket more is
open than before the call. -/
theorem New_loopback_counterexample :
    New (hostExample [⟨"127.0.0.1", true⟩]) "localhost" 0 =
      (.returned (none, some "127.0.0.1 is not a valid destination"), 1) ∧
    ¬ (∀ (host : Host) (destination : String) (sockets : Nat),
        host.LookupIP destination = .ok [⟨"127.0.0.1", true⟩] →
        (∃ err, (New host destination sockets).1 = .returned (none, some err)) ∧
        (New host destination sockets).2 = sockets) := by
  refine ⟨by decide, ?_⟩
  intro h
  have := (h (hostExample [⟨"127.0.0.1", true⟩]) "localhost" 0 rfl).2
  exact absurd this (by decide)

/-- C15 as the code has it. When the name resolves to IPv4 addresses that all print
as 127.0.0.1, `New` returns an error and no session. The raw socket is opened
first: when `ListenPacket` succeeds the error is that 127.0.0.1 is not a valid
destination and the socket `New` opened is open when it returns; when
`ListenPacket` fails, its error is returned and no socket was opened. -/
theorem New_loopback (host : Host) (destination : String) (sockets : Nat)
    (resolve46 : List IP) (hlookup : host.LookupIP destination = .ok resolve46)
    (hsome : resolve46.filter (fun addr => addr.To4) ≠ [])
    (hloop : ∀ ip ∈ resolve46, ip.To4 = true → ip.String = "127.0.0.1") :
    (∃ err, (New host destination sockets).1 = .returned (none, some err)) ∧
    (host.ListenPacket = none →
      New host destination sockets =
        (.returned (none, some "127.0.0.1 is not a valid destination"), sockets + 1)) ∧
    (∀ err, host.ListenPacket = some err →
      New host destination sockets = (.returned (none, some err), sockets)) := by
  have hfail : ∀ err, host.ListenPacket = some err →
      New host destination sockets = (.returned (none, some err), sockets) := by
    intro err h
    simp [New, h]
  have hok : host.ListenPacket = none →
      New host destination sockets =
        (.returned (none, some "127.0.0.1 is not a valid destination"), sockets + 1) := by
    intro hlisten
    have hid : Intn 65535 host.draws.1 = some ((host.draws.1 : Int) % 65535) := by
      simp [Intn]
    have hlen : 0 < (resolve46.filter (fun addr => addr.To4)).length :=
      List.length_pos.mpr hsome
    have hidx : Intn (resolve46.filter (fun addr => addr.To4)).length host.draws.2 =
        some ((host.draws.2 : Int) %
          ((resolve46.filter (fun addr => addr.To4)).length : Int)) := by
      unfold Intn
      rw [if_neg (by omega)]
    have hr := Intn_range hidx
    have hlt : ((host.draws.2 : Int) %
        ((resolve46.filter (fun addr => addr.To4)).length : Int)).toNat <
        (resolve46.filter (fun addr => addr.To4)).length := by
      omega
    have hget := List.getElem?_eq_getElem hlt
    have hmem := List.getElem_mem hlt
    have hstr := hloop _ (List.mem_of_mem_filter hmem) (by
      have := List.of_mem_filter hmem
      simpa using this)
    simp only [New, hlisten, hid, hlookup, hidx, hget, hstr, if_true]
  refine ⟨?_, hok, hfail⟩
  rcases hl : host.ListenPacket with _ | err
  · exact ⟨_, by rw [hok hl]⟩
  · exact ⟨_, by rw [hfail err hl]⟩

/-- C15 as the code has it, on the host where the name resolves to 127.0.0.1 alone. -/
theorem New_loopback_witness :
    New (hostExample [⟨"127.0.0.1", true⟩]) "localhost" 0 =
      (.returned (none, some "127.0.0.1 is not a valid destination"), 0 + 1) :=
  (New_loopback (hostExample [⟨"127.0.0.1", true⟩]) "localhost" 0 [⟨"127.0.0.1", true⟩] rfl
    (by decide) (by decide)).2.1 rfl

/-! ## A run in which every probe is answered -/

/-- While every probe is answered the loop climbs by 500 bytes a pass: from the head
`s = 20050 - 500 * k` it makes `k` passes and is left at 20050. -/
theorem Run.loop_climb (conn : PacketConn σ) (mf : MTUFind)
    (hall : ∀ size w, 56 ≤ size → size ≤ 20500 → (probe conn mf size w).1 = .received) :
    ∀ (k fuel : Nat) (s count maxSize : Int) (w : σ), k ≤ 40 → k ≤ fuel →
      s = 20050 - 500 * (k : Int) → maxSize ≤ s →
      ∃ l, Run.loop conn mf fuel s 500 count maxSize w = some l ∧
        l.log.map (fun e => (e.size, e.inc, e.result)) =
          (List.range k).map (fun i : Nat => (s + 500 * ((i : Int) + 1), 500, .received)) ∧
        l.maxSize = (if k = 0 then maxSize else 20050) ∧ l.size = 20050 ∧ l.inc = 500 := by
  intro k
  induction k with
  | zero =>
    intro fuel s count maxSize w _ _ hs _
    simp only [Nat.cast_zero, mul_zero, sub_zero] at hs
    subst hs
    exact ⟨_, Run.loop_exit conn mf _ _ _ _ _ _ (by omega), rfl, rfl, rfl, rfl⟩
  | succ k ih =>
    intro fuel s count maxSize w hk hfuel hs hmax
    obtain ⟨f, rfl⟩ : ∃ f, fuel = f + 1 := ⟨fuel - 1, by omega⟩
    push_cast at hs
    obtain ⟨l, hl, hlog, hm, hsize, hinc⟩ := ih f (s + 500) (addInt count 1) (s + 500)
      (probe conn mf (s + 500) w).2 (by omega) (by omega) (by omega) (le_refl _)
    rw [Run.loop_step_ok conn mf f s 500 count maxSize w (s + 500) (s + 500) rfl
      (by rw [if_pos (by omega)]) (by omega) (by omega) (by omega) (by omega)
      (hall _ _ (by omega) (by omega)), hl]
    refine ⟨_, rfl, ?_, ?_, hsize, hinc⟩
    · simp only [LoopEnd.push, List.map_cons, hlog, List.range_succ_eq_map, List.map_map]
      congr 1
      · simp
        intro a _
        omega
    · simp only [LoopEnd.push, hm]
      split
      · rename_i h0
        subst h0
        simp only [Nat.cast_zero, mul_zero] at hs
        simp
        omega
      · simp

/-- C16. When every probe is sent and answered, `Run` makes exactly 40 passes of the
main loop, of sizes 550, 1050, ..., 20050, the increment staying at 500, leaves
the loop by its condition with `size = 20050 > 20000`, and returns 20078 with a
nil error. -/
theorem Run_all_answered (conn : PacketConn σ) (mf : MTUFind) (fuel : Nat) (w : σ)
    (hstart : mf.startSize = 50) (hfuel : 19951 ≤ fuel)
    (hall : ∀ size w, 56 ≤ size → size ≤ 20500 → (probe conn mf size w).1 = .received) :
    Run conn mf fuel w = some (20078, none) ∧
    ∃ r l, Run.full conn mf fuel w = some r ∧
      Run.loop conn mf fuel mf.startSize 500 1 0 (probe conn mf 56 w).2 = some l ∧
      r.log = l.log ∧ r.log.length = 40 ∧
      r.log.map (fun e => (e.size, e.inc, e.result)) =
        (List.range 40).map (fun i : Nat => (550 + 500 * (i : Int), 500, .received)) ∧
      l.size = 20050 ∧ l.maxSize = 20050 ∧ r.ret = 20050 + 28 ∧ r.err = none := by
  have hp : (probe conn mf 56 w).1 ≠ .replyError := by
    rw [hall 56 w (by omega) (by omega)]; simp
  obtain ⟨l, hl, _, _, hfull⟩ := Run.full_searching conn mf fuel w hstart hfuel hp
  obtain ⟨l', hl', hlog, hm, hsize, _⟩ := Run.loop_climb conn mf hall 40 fuel 50 1 0
    (probe conn mf 56 w).2 (by omega) (by omega) (by norm_num) (by omega)
  rw [hl] at hl'
  cases hl'
  simp only [show ¬ (40 = 0) by decide, if_false] at hm
  have hlog' : l.log.map (fun e => (e.size, e.inc, e.result)) =
      (List.range 40).map (fun i : Nat => (550 + 500 * (i : Int), 500, .received)) := by
    rw [hlog]
    apply List.map_congr_left
    intro i _
    simp only [Prod.mk.injEq, and_true]
    omega
  refine ⟨?_, _, l, hfull, by rw [hstart]; exact hl, rfl, ?_, hlog', hsize, hm, ?_, rfl⟩
  · simp only [Run, hfull, Option.map_some', hm]
    norm_num
  · have := congrArg List.length hlog'
    simpa using this
  · simp only [hm]
    norm_num

/-- C16 in the world where every probe up to 30000 bytes gets through. -/
theorem Run_all_answered_witness :
    Run (thresholdConn 30000 "192.0.2.1" 7) mfExample 19951 () = some (20078, none) :=
  (Run_all_answered (thresholdConn 30000 "192.0.2.1" 7) mfExample 19951 () rfl (by decide)
    (fun size w h0 h1 => by
      rw [mfExample, probe_thresholdConn 30000 _ 7 true 50 size w (by omega) (by omega),
        if_pos (by omega)])).1

/-! ## The increments of a run and how close it gets -/

theorem incAfter_facts (k : Nat) (hk : k ≤ 7) :
    58 ≤ 50 + (k : Int) + incAfter k ∧ 1 ≤ incAfter k ∧ incAfter k ≤ 500 ∧
      (incAfter k = 1 → k = 7) ∧
      (1 < incAfter k → k ≤ 6 ∧ nextInc (incAfter k) = incAfter (k + 1)) := by
  interval_cases k <;> decide

/-- Under a threshold `T ≥ 58` the loop ends at most 7 bytes below it: the head is
never more than `k` bytes above the best size so far (or above 50), `k` being the
number of failures that left the increment. -/
theorem Run.loop_near (conn : PacketConn σ) (mf : MTUFind) (T : Int) (hT1 : 58 ≤ T)
    (hT2 : T ≤ 20000)
    (hok : ∀ size w, 56 ≤ size → size ≤ T → (probe conn mf size w).1 = .received)
    (fuel : Nat) (size inc count maxSize : Int) (w : σ) (r : LoopEnd σ) (h50 : 50 ≤ size)
    (hi1 : 1 ≤ inc) (hi2 : inc ≤ 500)
    (h : Run.loop conn mf fuel size inc count maxSize w = some r) :
    ∀ k : Nat, k ≤ 7 → inc = incAfter k → 50 + (k : Int) ≤ size →
      ((50 ≤ maxSize ∧ size ≤ maxSize + k) ∨ size ≤ 50 + k) → T - 7 ≤ r.maxSize := by
  refine Run.loop_induction conn mf
    (fun size inc _ maxSize _ r => ∀ k : Nat, k ≤ 7 → inc = incAfter k →
      50 + (k : Int) ≤ size →
      ((50 ≤ maxSize ∧ size ≤ maxSize + k) ∨ size ≤ 50 + k) → T - 7 ≤ r.maxSize)
    ?_ ?_ ?_ ?_ fuel size inc count maxSize w r h50 hi1 hi2 h
  · intro size inc count maxSize w hs k hk _ _ hinv
    simp only []
    omega
  · intro size count maxSize w res w' _ _ hp hres k hk hinc hlow hinv
    simp only []
    have hk7 := (incAfter_facts k hk).2.2.2.1 hinc.symm
    have hT : T < size + 1 := by
      by_contra hle
      have := hok (size + 1) w (by omega) (by omega)
      rw [hp] at this
      exact hres this
    omega
  · intro size inc count maxSize w res w' r _ _ hi _ _ _ ih k hk hinc hlow hinv
    have hf := incAfter_facts k hk
    rw [← hinc] at hf
    have hk6 := (hf.2.2.2.2 hi).1
    exact ih (k + 1) (by omega) (hf.2.2.2.2 hi).2 (by push_cast; omega) (by push_cast; omega)
  · intro size inc count maxSize w w' r _ _ _ _ _ ih k hk hinc hlow hinv
    refine ih k hk hinc (by omega) ?_
    split <;> omega

/-- C17. For every threshold `58 ≤ T ≤ 20000`, when every probe of at most `T` bytes
is sent and answered and every larger one fails, the best size `Run` finds is
between `T - 7` and `T`, so the value it returns is between `T + 21` and
`T + 28`. -/
theorem Run_within_seven (conn : PacketConn σ) (mf : MTUFind) (fuel : Nat) (w : σ) (T : Int)
    (hstart : mf.startSize = 50) (hfuel : 19951 ≤ fuel) (hT1 : 58 ≤ T) (hT2 : T ≤ 20000)
    (hok : ∀ size w, 56 ≤ size → size ≤ T → (probe conn mf size w).1 = .received)
    (hfail : ∀ size w, T < size → size ≤ 20500 → (probe conn mf size w).1 ≠ .received) :
    ∃ best, Run conn mf fuel w = some (20 + 8 + best, none) ∧ T - 7 ≤ best ∧ best ≤ T ∧
      T + 21 ≤ 20 + 8 + best ∧ 20 + 8 + best ≤ T + 28 := by
  have hp : (probe conn mf 56 w).1 ≠ .replyError := by
    rw [hok 56 w (by omega) (by omega)]; simp
  obtain ⟨l, hl, _, _, hfull⟩ := Run.full_searching conn mf fuel w hstart hfuel hp
  have hlow := Run.loop_near conn mf T hT1 hT2 hok fuel 50 500 1 0 _ l (by omega) (by omega)
    (by omega) hl 0 (by omega) (by decide) (by simp) (Or.inr (by simp))
  have hm := Run.loop_maxSize conn mf fuel 50 500 1 0 _ l (by omega) (by omega) (by omega) hl
  have hs := Run.loop_sizes conn mf fuel 50 500 1 0 _ l (by omega) (by omega) (by omega) hl
  have hr := Run.loop_results conn mf fuel 50 500 1 0 _ l (by omega) (by omega) (by omega) hl
  have hup : l.maxSize ≤ T := by
    rcases hm.2.2 with h0 | ⟨e, he, hres, hsz⟩
    · omega
    · by_contra hgt
      obtain ⟨w1, hw1⟩ := hr e he
      rw [hres] at hw1
      exact hfail e.size w1 (by omega) (hs e he).2.2.1 hw1
  refine ⟨l.maxSize, ?_, hlow, hup, by omega, by omega⟩
  simp only [Run, hfull, Option.map_some']
  have e : (28 : Int) + l.maxSize = 20 + 8 + l.maxSize := by omega
  rw [e]

/-- C17 at the threshold 551, where the run ends one byte below. -/
theorem Run_within_seven_witness :
    ∃ best, Run (thresholdConn 551 "192.0.2.1" 7) mfExample 19951 () =
        some (20 + 8 + best, none) ∧
      551 - 7 ≤ best ∧ best ≤ 551 ∧ 551 + 21 ≤ 20 + 8 + best ∧ 20 + 8 + best ≤ 551 + 28 :=
  Run_within_seven (thresholdConn 551 "192.0.2.1" 7) mfExample 19951 () 551 rfl (by decide)
    (by decide) (by decide)
    (fun size w h0 h1 => by
      rw [mfExample, probe_thresholdConn 551 _ 7 true 50 size w (by omega) (by omega),
        if_pos h1])
    (fun size w h0 h1 => by
      rw [mfExample, probe_thresholdConn 551 _ 7 true 50 size w (by omega) (by omega),
        if_neg (by omega)]
      simp)

theorem failures_cons (e : ProbeLog) (log : List ProbeLog) :
    failures (e :: log) = failures log + if e.result = .received then 0 else 1 := by
  unfold failures
  rw [List.countP_cons]
  by_cases h : e.result = .received <;> simp [h]

/-- After `k` failures the increment is the `k`-th of the table, at every pass of the
loop; a pass that fails with `inc == 1` is the last; and no more than 8 passes
fail. -/
theorem Run.loop_increments (conn : PacketConn σ) (mf : MTUFind) (fuel : Nat)
    (size inc count maxSize : Int) (w : σ) (r : LoopEnd σ) (h50 : 50 ≤ size) (hi1 : 1 ≤ inc)
    (hi2 : inc ≤ 500) (h : Run.loop conn mf fuel size inc count maxSize w = some r) :
    ∀ k : Nat, k ≤ 7 → inc = incAfter k →
      (∀ pre e post, r.log = pre ++ e :: post →
        k + failures pre ≤ 7 ∧ e.inc = incAfter (k + failures pre) ∧
        (e.result ≠ .received → e.inc = 1 → post = [])) ∧
      k + failures r.log ≤ 8 := by
  refine Run.loop_induction conn mf
    (fun _ inc _ _ _ r => ∀ k : Nat, k ≤ 7 → inc = incAfter k →
      (∀ pre e post, r.log = pre ++ e :: post →
        k + failures pre ≤ 7 ∧ e.inc = incAfter (k + failures pre) ∧
        (e.result ≠ .received → e.inc = 1 → post = [])) ∧
      k + failures r.log ≤ 8)
    ?_ ?_ ?_ ?_ fuel size inc count maxSize w r h50 hi1 hi2 h
  · intro size inc count maxSize w _ k hk _
    refine ⟨?_, by simp [failures]; omega⟩
    intro pre e post hlog
    simp at hlog
  · intro size count maxSize w res w' _ _ _ hres k hk hinc
    have hk7 := (incAfter_facts k hk).2.2.2.1 hinc.symm
    refine ⟨?_, ?_⟩
    · intro pre e post hlog
      rcases pre with _ | ⟨e0, pre⟩
      · simp only [List.nil_append, List.cons.injEq] at hlog
        obtain ⟨rfl, rfl⟩ := hlog
        simp only [failures, List.countP_nil, add_zero]
        exact ⟨hk, hinc, by simp⟩
      · simp only [List.cons_append, List.cons.injEq] at hlog
        exact absurd hlog.2 (by simp)
    · rw [failures_cons, if_neg hres]
      simp only [failures, List.countP_nil]
      omega
  · intro size inc count maxSize w res w' r _ _ hi _ _ hres ih k hk hinc
    have hf := incAfter_facts k hk
    rw [← hinc] at hf
    have hk6 := (hf.2.2.2.2 hi).1
    obtain ⟨ih1, ih2⟩ := ih (k + 1) (by omega) (hf.2.2.2.2 hi).2
    refine ⟨?_, ?_⟩
    · intro pre e post hlog
      simp only [LoopEnd.push] at hlog
      rcases pre with _ | ⟨e0, pre⟩
      · simp only [List.nil_append, List.cons.injEq] at hlog
        obtain ⟨rfl, rfl⟩ := hlog
        simp only [failures, List.countP_nil, add_zero]
        exact ⟨hk, hinc, fun _ (h1 : inc = 1) => by omega⟩
      · simp only [List.cons_append, List.cons.injEq] at hlog
        obtain ⟨rfl, hlog⟩ := hlog
        have := ih1 pre e post hlog
        rw [failures_cons, if_neg hres]
        have e1 : k + (failures pre + 1) = k + 1 + failures pre := by omega
        rw [e1]
        exact this
    · simp only [LoopEnd.push]
      rw [failures_cons, if_neg hres]
      omega
  · intro size inc count maxSize w w' r _ _ _ _ _ ih k hk hinc
    obtain ⟨ih1, ih2⟩ := ih k hk hinc
    refine ⟨?_, ?_⟩
    · intro pre e post hlog
      simp only [LoopEnd.push] at hlog
      rcases pre with _ | ⟨e0, pre⟩
      · simp only [List.nil_append, List.cons.injEq] at hlog
        obtain ⟨rfl, rfl⟩ := hlog
        simp only [failures, List.countP_nil, add_zero]
        exact ⟨hk, hinc, fun h1 _ => absurd rfl h1⟩
      · simp only [List.cons_append, List.cons.injEq] at hlog
        obtain ⟨rfl, hlog⟩ := hlog
        have := ih1 pre e post hlog
        rw [failures_cons, if_pos rfl]
        exact this
    · simp only [LoopEnd.push]
      rw [failures_cons, if_pos rfl]
      exact ih2

/-- From one pass to the next the increment stays when the probe was answered and
becomes the next one when it failed; it never grows. -/
theorem Run.loop_inc_chain (conn : PacketConn σ) (mf : MTUFind) (fuel : Nat)
    (size inc count maxSize : Int) (w : σ) (r : LoopEnd σ) (h50 : 50 ≤ size) (hi1 : 1 ≤ inc)
    (hi2 : inc ≤ 500) (h : Run.loop conn mf fuel size inc count maxSize w = some r) :
    List.Chain' (fun a b : ProbeLog => (a.result = .received → b.inc = a.inc) ∧
        (a.result ≠ .received → b.inc = nextInc a.inc) ∧ b.inc ≤ a.inc) r.log ∧
      ∀ e ∈ r.log.head?, e.inc = inc := by
  refine Run.loop_induction conn mf
    (fun _ inc _ _ _ r =>
      List.Chain' (fun a b : ProbeLog => (a.result = .received → b.inc = a.inc) ∧
        (a.result ≠ .received → b.inc = nextInc a.inc) ∧ b.inc ≤ a.inc) r.log ∧
      ∀ e ∈ r.log.head?, e.inc = inc)
    ?_ ?_ ?_ ?_ fuel size inc count maxSize w r h50 hi1 hi2 h
  · intro size inc count maxSize w _
    simp
  · intro size count maxSize w res w' _ _ _ _
    simp
  · intro size inc count maxSize w res w' r _ _ hi hi' _ hres ih
    simp only [LoopEnd.push, List.chain'_cons', List.head?_cons, Option.mem_def,
      Option.some.injEq, forall_eq']
    refine ⟨⟨?_, ih.1⟩, trivial⟩
    intro y hy
    have := ih.2 y hy
    have hn := nextInc_bounds (by omega : 1 ≤ inc) hi'
    exact ⟨fun h => absurd h hres, fun _ => this, by rw [this]; exact le_of_lt (hn.2.2 hi)⟩
  · intro size inc count maxSize w w' r _ _ _ _ _ ih
    simp only [LoopEnd.push, List.chain'_cons', List.head?_cons, Option.mem_def,
      Option.some.injEq, forall_eq']
    refine ⟨⟨?_, ih.1⟩, trivial⟩
    intro y hy
    have := ih.2 y hy
    exact ⟨fun _ => this, fun h => absurd rfl h, le_of_eq this⟩

/-- C18. In every run the increment of a pass is the entry of
`[500, 250, 125, 62, 31, 15, 7, 1]` at the number of failed probes before it,
which is at most 7, whatever answered probes lie between; so it is at least 1,
stays after an answered probe, becomes the next one after a failed probe and
never grows. A pass that fails with `inc == 1` is the last, and at most 8 passes
fail. When no main-loop probe is answered, the passes are exactly 550, 301, 177,
115, 85, 70, 63, 58 and `Run` returns 28 with a nil error. -/
theorem Run_increments (conn : PacketConn σ) (mf : MTUFind) (fuel : Nat) (w : σ)
    (hstart : mf.startSize = 50) (hfuel : 19951 ≤ fuel) :
    (List.range 8).map incAfter = [500, 250, 125, 62, 31, 15, 7, 1] ∧
    ∃ r, Run.full conn mf fuel w = some r ∧
      (∀ pre e post, r.log = pre ++ e :: post →
        failures pre ≤ 7 ∧ e.inc = incAfter (failures pre) ∧ 1 ≤ e.inc ∧
        (e.result ≠ .received → e.inc = 1 → post = [])) ∧
      failures r.log ≤ 8 ∧
      List.Chain' (fun a b : ProbeLog => (a.result = .received → b.inc = a.inc) ∧
        (a.result ≠ .received → b.inc = nextInc a.inc) ∧ b.inc ≤ a.inc) r.log ∧
      ((probe conn mf 56 w).1 ≠ .replyError →
        (∀ size w', 56 ≤ size → size ≤ 20500 → (probe conn mf size w').1 ≠ .received) →
        r.log.map (fun e => (e.size, e.inc)) =
          [(550, 500), (301, 250), (177, 125), (115, 62), (85, 31), (70, 15), (63, 7),
            (58, 1)] ∧
        (∀ e ∈ r.log, e.result ≠ .received) ∧ r.ret = 28 ∧ r.err = none) := by
  refine ⟨by decide, ?_⟩
  by_cases hp : (probe conn mf 56 w).1 = .replyError
  · refine ⟨_, Run.full_unreachable conn mf fuel w hp, ?_, by simp [failures], by simp, ?_⟩
    · intro pre e post hlog
      simp at hlog
    · intro h
      exact absurd hp h
  · obtain ⟨l, hl, _, _, hfull⟩ := Run.full_searching conn mf fuel w hstart hfuel hp
    have hinc := Run.loop_increments conn mf fuel 50 500 1 0 _ l (by omega) (by omega)
      (by omega) hl 0 (by omega) (by decide)
    have hchain := Run.loop_inc_chain conn mf fuel 50 500 1 0 _ l (by omega) (by omega)
      (by omega) hl
    refine ⟨_, hfull, ?_, by simpa using hinc.2, hchain.1, ?_⟩
    · intro pre e post hlog
      have h := hinc.1 pre e post hlog
      simp only [zero_add] at h
      exact ⟨h.1, h.2.1, by rw [h.2.1]; exact (incAfter_facts _ h.1).2.1, h.2.2⟩
    · intro _ hne
      obtain ⟨k, rfl⟩ : ∃ k, fuel = k + 8 := ⟨fuel - 8, by omega⟩
      rw [Run.loop_step_fail conn mf _ 50 500 _ _ _ 550 51 250 (by decide) (by decide)
          (by decide) (by omega) (by omega) (by omega) (by omega) (hne _ _ (by omega) (by omega)),
        Run.loop_step_fail conn mf _ 51 250 _ _ _ 301 52 125 (by decide) (by decide)
          (by decide) (by omega) (by omega) (by omega) (by omega) (hne _ _ (by omega) (by omega)),
        Run.loop_step_fail conn mf _ 52 125 _ _ _ 177 53 62 (by decide) (by decide)
          (by decide) (by omega) (by omega) (by omega) (by omega) (hne _ _ (by omega) (by omega)),
        Run.loop_step_fail conn mf _ 53 62 _ _ _ 115 54 31 (by decide) (by decide)
          (by decide) (by omega) (by omega) (by omega) (by omega) (hne _ _ (by omega) (by omega)),
        Run.loop_step_fail conn mf _ 54 31 _ _ _ 85 55 15 (by decide) (by decide)
          (by decide) (by omega) (by omega) (by omega) (by omega) (hne _ _ (by omega) (by omega)),
        Run.loop_step_fail conn mf _ 55 15 _ _ _ 70 56 7 (by decide) (by decide)
          (by decide) (by omega) (by omega) (by omega) (by omega) (hne _ _ (by omega) (by omega)),
        Run.loop_step_fail conn mf _ 56 7 _ _ _ 63 57 1 (by decide) (by decide)
          (by decide) (by omega) (by omega) (by omega) (by omega) (hne _ _ (by omega) (by omega)),
        Run.loop_step_break conn mf _ 57 _ _ _ 58 (by decide) (by omega) (by omega)
          (hne _ _ (by omega) (by omega))] at hl
      simp only [Option.map_some', Option.some.injEq] at hl
      subst hl
      refine ⟨rfl, ?_, by simp [LoopEnd.push], rfl⟩
      intro e he
      simp only [LoopEnd.push, List.mem_cons, List.mem_singleton, List.not_mem_nil,
        or_false] at he
      rcases he with rfl | rfl | rfl | rfl | rfl | rfl | rfl | rfl <;>
        exact hne _ _ (by omega) (by omega)

/-- C18 in a world where nothing ever gets through: eight passes, 28 returned. -/
theorem Run_increments_witness :
    ∃ r, Run.full (thresholdConn 0 "192.0.2.1" 7) mfExample 19951 () = some r ∧
      failures r.log ≤ 8 :=
  have h := (Run_increments (thresholdConn 0 "192.0.2.1" 7) mfExample 19951 () rfl
    (by decide)).2
  h.elim fun r hr => ⟨r, hr.1, hr.2.2.1⟩

/-- No pass probes fewer than 58 bytes: after `k` failures the head is at least
`50 + k`. -/
theorem Run.loop_sizes_low (conn : PacketConn σ) (mf : MTUFind) (fuel : Nat)
    (size inc count maxSize : Int) (w : σ) (r : LoopEnd σ) (h50 : 50 ≤ size) (hi1 : 1 ≤ inc)
    (hi2 : inc ≤ 500) (h : Run.loop conn mf fuel size inc count maxSize w = some r) :
    ∀ k : Nat, k ≤ 7 → inc = incAfter k → 50 + (k : Int) ≤ size →
      ∀ e ∈ r.log, 58 ≤ e.size := by
  refine Run.loop_induction conn mf
    (fun size inc _ _ _ r => ∀ k : Nat, k ≤ 7 → inc = incAfter k → 50 + (k : Int) ≤ size →
      ∀ e ∈ r.log, 58 ≤ e.size)
    ?_ ?_ ?_ ?_ fuel size inc count maxSize w r h50 hi1 hi2 h
  · intro size inc count maxSize w _ k _ _ _ e he
    simp at he
  · intro size count maxSize w res w' _ _ _ _ k hk hinc hlow e he
    have hk7 := (incAfter_facts k hk).2.2.2.1 hinc.symm
    simp only [List.mem_singleton] at he
    subst he
    simp only []
    omega
  · intro size inc count maxSize w res w' r _ _ hi _ _ _ ih k hk hinc hlow e he
    have hf := incAfter_facts k hk
    rw [← hinc] at hf
    have hk6 := (hf.2.2.2.2 hi).1
    simp only [LoopEnd.push, List.mem_cons] at he
    rcases he with rfl | he
    · simp only []
      omega
    · exact ih (k + 1) (by omega) (hf.2.2.2.2 hi).2 (by push_cast; omega) e he
  · intro size inc count maxSize w w' r _ _ _ _ _ ih k hk hinc hlow e he
    have hf := incAfter_facts k hk
    rw [← hinc] at hf
    simp only [LoopEnd.push, List.mem_cons] at he
    rcases he with rfl | he
    · simp only []
      omega
    · exact ih k hk hinc (by omega) e he

/-- C19. In every run each payload size the main loop probes is between 58 and
20500; the total length of the header of each probe, the 56-byte check
included, is the exact sum, at most 20528, and fits in 16 bits; and the value
`Run` returns with a nil error is between 28 and 20528. Probes above 20000 bytes
do occur: where everything gets through, the last probe has 20050 bytes. -/
theorem Run_probe_range (conn : PacketConn σ) (mf : MTUFind) (fuel : Nat) (w : σ)
    (hstart : mf.startSize = 50) (hfuel : 19951 ≤ fuel) :
    (∃ r, Run.full conn mf fuel w = some r ∧
      (∀ e ∈ r.log, 58 ≤ e.size ∧ e.size ≤ 20500 ∧
        (header mf e.size).TotalLen = 20 + 8 + e.size ∧
        (header mf e.size).TotalLen ≤ 20528 ∧ (header mf e.size).TotalLen < 2 ^ 16) ∧
      (r.err = none → 28 ≤ r.ret ∧ r.ret ≤ 20528)) ∧
    (header mf 56).TotalLen = 84 ∧
    ∃ r, Run.full (thresholdConn 30000 "192.0.2.1" 7) mfExample 19951 () = some r ∧
      ∃ e ∈ r.log, e.size = 20050 := by
  refine ⟨?_, ?_, ?_⟩
  rotate_left
  · show addInt (addInt ipv4.HeaderLen 8) 56 = 84
    decide
  · have hall : ∀ (size : Int) (w : Unit), 56 ≤ size → size ≤ 20500 →
        (probe (thresholdConn 30000 "192.0.2.1" 7) mfExample size w).1 = .received := by
      intro size w h0 h1
      rw [mfExample, probe_thresholdConn 30000 _ 7 true 50 size w (by omega) (by omega),
        if_pos (by omega)]
    have hp : (probe (thresholdConn 30000 "192.0.2.1" 7) mfExample 56 ()).1 ≠ .replyError := by
      rw [hall 56 () (by omega) (by omega)]; simp
    obtain ⟨l, hl, _, _, hfull⟩ := Run.full_searching (thresholdConn 30000 "192.0.2.1" 7)
      mfExample 19951 () rfl (by omega) hp
    obtain ⟨l', hl', hlog, _⟩ := Run.loop_climb (thresholdConn 30000 "192.0.2.1" 7) mfExample
      hall 40 19951 50 1 0 (probe (thresholdConn 30000 "192.0.2.1" 7) mfExample 56 ()).2
      (by omega) (by omega) (by norm_num) (by omega)
    rw [hl] at hl'
    cases hl'
    have hmem : ((20050 : Int), (500 : Int), ProbeResult.received) ∈
        l.log.map (fun e => (e.size, e.inc, e.result)) := by
      rw [hlog, List.mem_map]
      exact ⟨39, by simp, by norm_num⟩
    obtain ⟨e, he, heq⟩ := List.mem_map.mp hmem
    simp only [Prod.mk.injEq] at heq
    exact ⟨_, hfull, e, he, heq.1⟩
  by_cases hp : (probe conn mf 56 w).1 = .replyError
  · refine ⟨_, Run.full_unreachable conn mf fuel w hp, by simp, ?_⟩
    intro h
    simp at h
  · obtain ⟨l, hl, h0, h1, hfull⟩ := Run.full_searching conn mf fuel w hstart hfuel hp
    have hs := Run.loop_sizes conn mf fuel 50 500 1 0 _ l (by omega) (by omega) (by omega) hl
    have hlow := Run.loop_sizes_low conn mf fuel 50 500 1 0 _ l (by omega) (by omega)
      (by omega) hl 0 (by omega) (by decide) (by simp)
    refine ⟨_, hfull, ?_, fun _ => ⟨by simp only []; omega, by simp only []; omega⟩⟩
    intro e he
    have h58 := hlow e he
    have h20500 := (hs e he).2.2.1
    have h28 : addInt ipv4.HeaderLen 8 = 28 := by decide
    have hlen : (header mf e.size).TotalLen = 20 + 8 + e.size := by
      simp only [header, h28]
      rw [addInt_eq (isInt_small (by omega) (by omega))]
      omega
    refine ⟨h58, h20500, hlen, ?_, ?_⟩ <;> rw [hlen] <;> omega

/-- C19 in the world where probes up to 2050 bytes get through. -/
theorem Run_probe_range_witness :
    ∃ r, Run.full (thresholdConn 2050 "192.0.2.1" 7) mfExample 19951 () = some r ∧
      (∀ e ∈ r.log, 58 ≤ e.size ∧ e.size ≤ 20500 ∧
        (header mfExample e.size).TotalLen = 20 + 8 + e.size ∧
        (header mfExample e.size).TotalLen ≤ 20528 ∧
        (header mfExample e.size).TotalLen < 2 ^ 16) ∧
      (r.err = none → 28 ≤ r.ret ∧ r.ret ≤ 20528) :=
  (Run_probe_range (thresholdConn 2050 "192.0.2.1" 7) mfExample 19951 () rfl (by decide)).1

end mtufind
